import Mathlib

/-!
Verification of the jellyfin-renamer core (src/renamer/parser.py, cleaner.py,
operations.py) against its natural-language specification.

The Python code is shallowly embedded over `List Char` / `String`.  Regular
expressions are hand-translated into executable scanners that reproduce the
leftmost-search / greedy-quantifier semantics of Python's `re` module for the
concrete patterns appearing in the source.  Character classes (`\d`, `\s`,
`\w`, case folding) are modelled over their ASCII meaning, which is the
behaviour exercised by the repository's domain (media filenames).
-/

set_option maxRecDepth 4000

set_option linter.unusedVariables false

/-! ### Character classes and small helpers -/

/-- Pattern `\d` (ASCII). -/
def isDigitC (c : Char) : Bool := '0' ≤ c && c ≤ '9'

/-- Pattern `\s` (Python's ASCII whitespace: space, tab, newline, CR, VT, FF). -/
def isWsC (c : Char) : Bool :=
  c == ' ' || c == '\t' || c == '\n' || c == '\r' || c == '\x0b' || c == '\x0c'

/-- The separator class `[\s_.-]` used throughout the patterns. -/
def isSepC (c : Char) : Bool := isWsC c || c == '_' || c == '.' || c == '-'

/-- ASCII lower-casing, as applied by `str.lower()` / `re.IGNORECASE` on the
ASCII range. -/
def lowerC (c : Char) : Char :=
  if 'A' ≤ c && c ≤ 'Z' then Char.ofNat (c.toNat + 32) else c

/-- Case-insensitive character equality. -/
def ciEq (a b : Char) : Bool := lowerC a == lowerC b

/-- Case-insensitive "starts with" over char lists. -/
def ciPrefixOf : List Char → List Char → Bool
  | [], _ => true
  | _ :: _, [] => false
  | a :: as, b :: bs => ciEq a b && ciPrefixOf as bs

/-- Length of the leading run of characters satisfying `p`. -/
def runLen (p : Char → Bool) (s : List Char) : Nat := (s.takeWhile p).length

/-- Numeric value of a digit string, as computed by Python's `int`. -/
def digitsVal (ds : List Char) : Nat := ds.foldl (fun a c => a * 10 + (c.toNat - 48)) 0

/-- Python's `int(text)` on a string: succeeds exactly on (non-empty) digit
strings in the forms produced by the regex captures below; raises `ValueError`
otherwise, modelled as `Except`. -/
def intE (ds : List Char) : Except String Nat :=
  if ds ≠ [] ∧ ds.all isDigitC then .ok (digitsVal ds) else .error "ValueError"

/-- Python's `str(n)` for a natural number: decimal digits (fuel-driven so the
kernel can evaluate it). -/
def pyDecAux : Nat → Nat → List Char
  | 0, _ => []
  | _ + 1, 0 => []
  | fuel + 1, n => pyDecAux fuel (n / 10) ++ [Char.ofNat (48 + n % 10)]

def pyDec (n : Nat) : List Char := if n = 0 then ['0'] else pyDecAux (n + 1) n

/-- Zero left-padding, as in Python's `{n:0wd}` format for `n ≥ 0`. -/
def padZero (w : Nat) (ds : List Char) : List Char :=
  List.replicate (w - ds.length) '0' ++ ds

/-! ### parser.py : `EpisodeInfo` and `get_season_episode` -/

/-- The `EpisodeInfo` dataclass (parser.py:18-29). -/
structure EpisodeInfo where
  season : Nat
  episode : Nat
deriving DecidableEq

/-- The `EpisodeInfo.format_code` (parser.py:24-29): `S{season:02d}E{episode:02d}`,
with a 3-digit episode field when `episode >= 100`. -/
def EpisodeInfo.format_code (e : EpisodeInfo) : List Char :=
  if 100 ≤ e.episode then
    'S' :: (padZero 2 (pyDec e.season) ++ 'E' :: padZero 3 (pyDec e.episode))
  else
    'S' :: (padZero 2 (pyDec e.season) ++ 'E' :: padZero 2 (pyDec e.episode))

/-- Embeds `re.search`: try a match at every position, leftmost first. -/
def listSearch {α : Type} (f : List Char → Option α) : List Char → Option α
  | [] => f []
  | c :: rest =>
    match f (c :: rest) with
    | some r => some r
    | none => listSearch f rest

/-- Match of `PATTERN_SXXEXX = [Ss](\d{1,2})[\s_.-]*[Ee](\d{1,3})` (IGNORECASE)
anchored at the head of the list; returns the two digit captures.
The quantifiers resolve deterministically: a 1- or 2-digit season run followed
by the (disjoint) separator class, then `E` and a 1-3 digit episode capture;
a season digit-run longer than 2 can never match (backtracking one digit puts
a digit where the separator-or-`E` must be). -/
def sxxexxAt : List Char → Option (List Char × List Char)
  | [] => none
  | c :: rest =>
    if c == 'S' || c == 's' then
      let r := runLen isDigitC rest
      if r = 0 || 2 < r then none
      else
        let ds1 := rest.takeWhile isDigitC
        let after1 := rest.drop r
        let after2 := after1.drop (runLen isSepC after1)
        match after2 with
        | e :: rest2 =>
          if e == 'E' || e == 'e' then
            let r2 := runLen isDigitC rest2
            if r2 = 0 then none
            else some (ds1, (rest2.takeWhile isDigitC).take 3)
          else none
        | [] => none
    else none

/-- Match of `PATTERN_NXNN = (\d{1,2})x(\d{2,3})` (IGNORECASE) at the head.
A digit-run longer than 2 before the `x` can never match (same backtracking
argument as above); the episode capture is the first `min(run,3)` digits and
needs at least 2. -/
def nxnnAt (s : List Char) : Option (List Char × List Char) :=
  let r := runLen isDigitC s
  if r = 0 || 2 < r then none
  else
    let ds1 := s.takeWhile isDigitC
    match s.drop r with
    | x :: rest2 =>
      if x == 'x' || x == 'X' then
        let r2 := runLen isDigitC rest2
        if r2 < 2 then none else some (ds1, (rest2.takeWhile isDigitC).take 3)
      else none
    | [] => none

/-- Match of `PATTERN_EXX = [Ee](\d{1,3})` (IGNORECASE) at the head. -/
def exxAt : List Char → Option (List Char)
  | [] => none
  | c :: rest =>
    if c == 'E' || c == 'e' then
      let r := runLen isDigitC rest
      if r = 0 then none else some ((rest.takeWhile isDigitC).take 3)
    else none

/-- Match of `PATTERN_ANIME = -\s+(\d{1,3})\s*[\[\(.]` at the head.  A digit
run longer than 3 can never match (the char after a shorter capture would be a
digit, which is neither whitespace nor `[`, `(`, `.`). -/
def animeAt : List Char → Option (List Char)
  | [] => none
  | c :: rest =>
    if c == '-' then
      let w := runLen isWsC rest
      if w = 0 then none
      else
        let afterW := rest.drop w
        let d := runLen isDigitC afterW
        if d = 0 || 3 < d then none
        else
          let ds := afterW.takeWhile isDigitC
          let afterD := afterW.drop d
          match afterD.drop (runLen isWsC afterD) with
          | b :: _ => if b == '[' || b == '(' || b == '.' then some ds else none
          | [] => none
    else none

/-- The standard pattern chain of `get_season_episode` (parser.py:95-116):
SxxExx, then NxNN, then Exx, then a caller-supplied fallback. -/
def stdThen (s : List Char) (fallback : Option EpisodeInfo) : Option EpisodeInfo :=
  match listSearch sxxexxAt s with
  | some (d1, d2) => some ⟨digitsVal d1, digitsVal d2⟩
  | none =>
    match listSearch nxnnAt s with
    | some (d1, d2) => some ⟨digitsVal d1, digitsVal d2⟩
    | none =>
      match listSearch exxAt s with
      | some ds => some ⟨1, digitsVal ds⟩
      | none => fallback

/-- The `get_season_episode` (parser.py:61-126) over char lists. -/
def getSeasonEpisodeL (s : List Char) (anime_mode : Bool) : Option EpisodeInfo :=
  if anime_mode then
    match listSearch animeAt s with
    | some ds => some ⟨1, digitsVal ds⟩
    | none => stdThen s none
  else
    stdThen s
      (match listSearch animeAt s with
       | some ds => some ⟨1, digitsVal ds⟩
       | none => none)

/-- The `get_season_episode` on strings. -/
def get_season_episode (filename : String) (anime_mode : Bool) : Option EpisodeInfo :=
  getSeasonEpisodeL filename.data anime_mode

/-! ### cleaner.py : ellipsis protection -/

/-- Abbreviation: the characters of a string literal. -/
def strL (s : String) : List Char := s.data

/-- The `ELLIPSIS_PLACEHOLDER` (cleaner.py:89). -/
def ELLIPSIS_PLACEHOLDER : List Char := strL "THREEDOTSPLACEHOLDER"

def dotsPat : List Char := strL "..."

/-- Python's `str.replace` for a non-empty pattern: scan left to right,
replace non-overlapping occurrences, continue after the replaced text.
(The guard makes the empty pattern a no-op; both patterns used here are
non-empty.)  Fuel-driven structural recursion (each step consumes at least one
character, so `s.length` fuel always suffices) to keep the definition
kernel-evaluable. -/
def listReplaceAux (pat repl : List Char) : Nat → List Char → List Char
  | 0, s => s
  | _ + 1, [] => []
  | fuel + 1, c :: rest =>
    if pat ≠ [] ∧ pat.isPrefixOf (c :: rest) = true then
      repl ++ listReplaceAux pat repl fuel ((c :: rest).drop pat.length)
    else
      c :: listReplaceAux pat repl fuel rest

def listReplace (pat repl s : List Char) : List Char := listReplaceAux pat repl s.length s

/-- The `protect_ellipsis` (cleaner.py:99-101). -/
def protectL (s : List Char) : List Char := listReplace dotsPat ELLIPSIS_PLACEHOLDER s

/-- The `restore_ellipsis` (cleaner.py:104-106). -/
def restoreL (s : List Char) : List Char := listReplace ELLIPSIS_PLACEHOLDER dotsPat s

def protect_ellipsis (s : String) : String := ⟨protectL s.data⟩

def restore_ellipsis (s : String) : String := ⟨restoreL s.data⟩

/-- Substring occurrence test (Python's `in` on strings). -/
def containsSub (pat : List Char) : List Char → Bool
  | [] => pat.isPrefixOf []
  | c :: rest => pat.isPrefixOf (c :: rest) || containsSub pat rest

/-! ### cleaner.py : `find_title_boundary` -/

def qualityAlts : List (List Char) :=
  [strL "720p", strL "1080p", strL "2160p", strL "4K", strL "480p", strL "576p"]

def anyCiAltAt (alts : List (List Char)) (s : List Char) : Bool :=
  alts.any (fun a => ciPrefixOf a s)

/-- The codec alternation `x264|x265|HEVC|H\.?264|H\.?265` as a
present-at-head test. -/
def codecAltAt (s : List Char) : Bool :=
  ciPrefixOf (strL "x264") s || ciPrefixOf (strL "x265") s || ciPrefixOf (strL "HEVC") s ||
  (match s with
   | h :: r =>
     (h == 'H' || h == 'h') &&
       (ciPrefixOf (strL ".264") r || ciPrefixOf (strL "264") r ||
        ciPrefixOf (strL ".265") r || ciPrefixOf (strL "265") r)
   | [] => false)

def bTest4Alts : List (List Char) :=
  [strL "WEB-DL", strL "BluRay", strL "BDRip", strL "HDTV", strL "x264", strL "x265", strL "HEVC"]

def platformBoundaryAlts : List (List Char) := [strL "AMZN", strL "NFLX", strL "NF", strL "HULU"]

/-- Boundary signature 1: `\.(720p|1080p|2160p|4K|480p|576p)`. -/
def bTest1 : List Char → Bool
  | c :: r => c == '.' && anyCiAltAt qualityAlts r
  | [] => false

/-- Boundary signature 2: `\s+\((720p|1080p|2160p|4K|480p|576p)`. -/
def bTest2 (s : List Char) : Bool :=
  let w := runLen isWsC s
  (w != 0) &&
    (match s.drop w with
     | c :: r => c == '(' && anyCiAltAt qualityAlts r
     | [] => false)

/-- Boundary signature 3: `\.WEB\.(x264|x265|HEVC|H\.?264|H\.?265)`. -/
def bTest3 : List Char → Bool
  | c :: r =>
    c == '.' && ciPrefixOf (strL "WEB") r &&
      (match r.drop 3 with
       | d :: r2 => d == '.' && codecAltAt r2
       | [] => false)
  | [] => false

/-- Boundary signature 4: `\.(WEB-DL|BluRay|BDRip|HDTV|x264|x265|HEVC)`. -/
def bTest4 : List Char → Bool
  | c :: r => c == '.' && anyCiAltAt bTest4Alts r
  | [] => false

/-- Boundary signature 5: `\s+\((WEB-DL|BluRay|BDRip|HDTV|x264|x265|HEVC)`. -/
def bTest5 (s : List Char) : Bool :=
  let w := runLen isWsC s
  (w != 0) &&
    (match s.drop w with
     | c :: r => c == '(' && anyCiAltAt bTest4Alts r
     | [] => false)

/-- Boundary signature 6: `\.(AMZN|NFLX|NF|HULU)`. -/
def bTest6 : List Char → Bool
  | c :: r => c == '.' && anyCiAltAt platformBoundaryAlts r
  | [] => false

/-- No newline (Python's `.` does not match `\n`, so `(.+)` cannot span one). -/
def noNl (s : List Char) : Bool := s.all (fun c => c != '\n')

/-- Can the split `p = p.take i ++ p.drop i` realise `^(.+)SIG` with group 1 of
length `i`?  (`(.+)` must match the prefix, the signature the rest.) -/
def okAt (test : List Char → Bool) (p : List Char) (i : Nat) : Bool :=
  noNl (p.take i) && test (p.drop i)

/-- Greedy `(.+)`: try the longest split first, going down. -/
def descend (test : List Char → Bool) (p : List Char) : Nat → Option Nat
  | 0 => none
  | i + 1 => if okAt test p (i + 1) then some (i + 1) else descend test p i

def greedyMatchPos (test : List Char → Bool) (p : List Char) : Option Nat :=
  descend test p (p.length - 1)

def boundaryTests : List (List Char → Bool) := [bTest1, bTest2, bTest3, bTest4, bTest5, bTest6]

def firstBoundary : List (List Char → Bool) → List Char → Option Nat
  | [], _ => none
  | t :: ts, p =>
    match greedyMatchPos t p with
    | some i => some i
    | none => firstBoundary ts p

/-- The `find_title_boundary` (cleaner.py:109-140): protect the ellipsis, then try
the six `^(.+)SIG` patterns in order; the first pattern that matches wins and
the boundary is the length of its (greedy) group 1. -/
def find_title_boundaryL (text : List Char) : Option Nat :=
  firstBoundary boundaryTests (protectL text)

def find_title_boundary (text : String) : Option Nat := find_title_boundaryL text.data

/-- The truncation step of `clean_title` (cleaner.py:171-173):
`if boundary and boundary > 2: title = title[:boundary]`. -/
def boundaryTruncate (title : List Char) : List Char :=
  match find_title_boundaryL title with
  | some b => if 2 < b then title.take b else title
  | none => title

/-! ### Claim C2 : boundary detection is priority-ordered and greedy -/

/-- Position `i` is a possible `^(.+)SIG` split of `p`: group 1 is non-empty, the
signature needs at least one character, `(.+)` crosses no newline, and the
signature test holds at the split. -/
def validPos (test : List Char → Bool) (p : List Char) (i : Nat) : Prop :=
  1 ≤ i ∧ i + 1 ≤ p.length ∧ okAt test p i = true

/-- Position `i` is the greedy (largest) valid split. -/
def maxValidPos (test : List Char → Bool) (p : List Char) (i : Nat) : Prop :=
  validPos test p i ∧ ∀ j, validPos test p j → j ≤ i

def noValidPos (test : List Char → Bool) (p : List Char) : Prop :=
  ∀ j, ¬ validPos test p j

/-- Spec reading: "First pattern in the fixed order that matches wins, with greedy group 1". -/
def firstBoundarySpec : List (List Char → Bool) → List Char → Nat → Prop
  | [], _, _ => False
  | t :: ts, p, i => maxValidPos t p i ∨ (noValidPos t p ∧ firstBoundarySpec ts p i)

/-! ### cleaner.py : generic substitution scanners -/

/-- Generic global `re.sub(pat, '', s)` scanner for patterns that consume at
least one character: the matcher returns the length consumed at a position. -/
def subDeleteAux (m : List Char → Option Nat) : Nat → List Char → List Char
  | 0, s => s
  | _ + 1, [] => []
  | fuel + 1, c :: rest =>
    match m (c :: rest) with
    | some k =>
      if k = 0 then c :: subDeleteAux m fuel rest
      else subDeleteAux m fuel ((c :: rest).drop k)
    | none => c :: subDeleteAux m fuel rest

def subDelete (m : List Char → Option Nat) (s : List Char) : List Char :=
  subDeleteAux m s.length s

/-- Generic scanner for end-anchored deletions: the matcher consumes from the
match position to (almost) the end and returns the leftover (at most a final
newline, which `$` does not consume). -/
def scanCutAux (m : List Char → Option (List Char)) : Nat → List Char → List Char
  | 0, s => s
  | _ + 1, [] => []
  | fuel + 1, c :: rest =>
    match m (c :: rest) with
    | some leftover => leftover
    | none => c :: scanCutAux m fuel rest

def scanCut (m : List Char → Option (List Char)) (s : List Char) : List Char :=
  scanCutAux m s.length s

/-- Pattern `\s*\(\d{4}\)` matched at a position (the global sub in
`_remove_series_name` / `validate_episode_title`): returns the consumed
length. -/
def yearParenAt (s : List Char) : Option Nat :=
  let w := runLen isWsC s
  match s.drop w with
  | c :: r1 =>
    if c == '(' && (r1.take 4).length == 4 && (r1.take 4).all isDigitC &&
        (match r1.drop 4 with | d :: _ => d == ')' | [] => false) then
      some (w + 6)
    else none
  | [] => none

/-- Pattern `\(\d{4}\)` exactly at the head. -/
def parenYearExact (r : List Char) : Bool :=
  match r with
  | c :: r1 =>
    c == '(' && (r1.take 4).length == 4 && (r1.take 4).all isDigitC &&
      (match r1.drop 4 with | d :: _ => d == ')' | [] => false)
  | [] => false

/-! ### cleaner.py : `_remove_series_name` -/

/-- Embeds `str.replace(' ', c)`. -/
def spaceTo (c : Char) (s : List Char) : List Char :=
  s.map (fun a => if a == ' ' then c else a)

/-- The class `[._-]` (no whitespace). -/
def isDotUsDash (c : Char) : Bool := c == '.' || c == '_' || c == '-'

/-- Embeds `re.sub(f'^{escaped}[.\\s_-]*\\(\\d{4}\\)[.\\s_-]*', '', title, IGNORECASE)`. -/
def stripVariantParenYear (v t : List Char) : List Char :=
  if ciPrefixOf v t then
    let r0 := t.drop v.length
    let r1 := r0.drop (runLen isSepC r0)
    if parenYearExact r1 then
      let r2 := r1.drop 6
      r2.drop (runLen isSepC r2)
    else t
  else t

/-- Embeds `re.sub(f'^{escaped}[.\\s_-]*\\d{4}(?!p)[._-]*', '', title, IGNORECASE)`. -/
def stripVariantBareYear (v t : List Char) : List Char :=
  if ciPrefixOf v t then
    let r0 := t.drop v.length
    let r1 := r0.drop (runLen isSepC r0)
    if (r1.take 4).length == 4 && (r1.take 4).all isDigitC &&
        (match r1.drop 4 with
         | p :: _ => !(p == 'p' || p == 'P')
         | [] => true) then
      let r2 := r1.drop 4
      r2.drop (runLen isDotUsDash r2)
    else t
  else t

/-- Embeds `re.sub(f'^{escaped}[._-]*', '', title, IGNORECASE)`. -/
def stripVariantBare (v t : List Char) : List Char :=
  if ciPrefixOf v t then
    let r0 := t.drop v.length
    r0.drop (runLen isDotUsDash r0)
  else t

def applyVariant (t v : List Char) : List Char :=
  stripVariantBare v (stripVariantBareYear v (stripVariantParenYear v t))

/-- Embeds `re.sub(r'^\s*\(\d{4}\)\s*-?\s*', '', title)`. -/
def stripLeadingYearDash (t : List Char) : List Char :=
  let w := runLen isWsC t
  let r := t.drop w
  if parenYearExact r then
    let r2 := r.drop 6
    let r3 := r2.drop (runLen isWsC r2)
    match r3 with
    | '-' :: r4 => r4.drop (runLen isWsC r4)
    | _ => r3
  else t

/-- Embeds `re.sub(r'^-\s*-\s*', '', title)`. -/
def stripDoubleDash (t : List Char) : List Char :=
  match t with
  | '-' :: r =>
    (match r.drop (runLen isWsC r) with
     | '-' :: r2 => r2.drop (runLen isWsC r2)
     | _ => t)
  | _ => t

/-- The `_remove_series_name` (cleaner.py:205-233). -/
def removeSeriesNameL (title series_name : List Char) : List Char :=
  let series_no_year := subDelete yearParenAt series_name
  let variations :=
    [series_no_year, spaceTo '.' series_no_year, spaceTo '-' series_no_year,
     spaceTo '_' series_no_year]
  let t := variations.foldl applyVariant title
  stripDoubleDash (stripLeadingYearDash t)

/-! ### cleaner.py : `_strip_technical_metadata` -/

/-- Pattern `([.\s_-].*)?$` after an alternative: returns the extra consumed length,
or `none` when `$` is unreachable.  Python's `$` (no MULTILINE) matches at the
end of the string or just before a final newline; `.` does not match `\n`. -/
def tailDotStar (r : List Char) : Option Nat :=
  match r with
  | [] => some 0
  | c :: rest =>
    if isSepC c then
      if noNl rest then some (1 + rest.length)
      else if rest.getLast? = some '\n' ∧ noNl rest.dropLast then some rest.length
      else none
    else none

/-- A plain case-insensitive alternative: one candidate length. -/
def plainAlt (a : List Char) (s : List Char) : List Nat :=
  if ciPrefixOf a s then [a.length] else []

/-- Pattern `H\.?264` / `H\.?265` (greedy optional dot first). -/
def hDotAlt (digits : List Char) (s : List Char) : List Nat :=
  match s with
  | h :: r =>
    if h == 'H' || h == 'h' then
      (if ciPrefixOf ('.' :: digits) r then [digits.length + 2] else []) ++
      (if ciPrefixOf digits r then [digits.length + 1] else [])
    else []
  | [] => []

/-- Pattern `DDP\d?\.?\d?` : candidate lengths in greedy backtracking order. -/
def ddpAlt (s : List Char) : List Nat :=
  if ciPrefixOf (strL "DDP") s then
    match s.drop 3 with
    | [] => [3]
    | [a] =>
      (if isDigitC a then [4] else []) ++ (if a == '.' then [4] else []) ++
      (if isDigitC a then [4] else []) ++ [3]
    | a :: b :: _ =>
      (if isDigitC a && b == '.' && (match s.drop 5 with
          | c :: _ => isDigitC c
          | [] => false) then [6] else []) ++
      (if isDigitC a && b == '.' then [5] else []) ++
      (if isDigitC a && isDigitC b then [5] else []) ++
      (if isDigitC a then [4] else []) ++
      (if a == '.' && isDigitC b then [5] else []) ++
      (if a == '.' then [4] else []) ++
      (if isDigitC a then [4] else []) ++ [3]
  else []

/-- Try the candidate lengths of one alternative against the tail pattern. -/
def tryLens : List Nat → List Char → Option (List Char)
  | [], _ => none
  | l :: ls, r =>
    match tailDotStar (r.drop l) with
    | some k => some ((r.drop l).drop k)
    | none => tryLens ls r

/-- Try the alternatives of an alternation, in order. -/
def firstAltTail : List (List Char → List Nat) → List Char → Option (List Char)
  | [], _ => none
  | a :: as, r =>
    match tryLens (a r) r with
    | some leftover => some leftover
    | none => firstAltTail as r

/-- Pattern `[.\s_-]+(ALTS)([.\s_-].*)?$` matched at a position: the separator run is
a deterministic maximal munch (no alternative starts with a separator). -/
def stripEndMatchAt (alts : List (List Char → List Nat)) (s : List Char) :
    Option (List Char) :=
  let sep := runLen isSepC s
  if sep = 0 then none else firstAltTail alts (s.drop sep)

def stripEnd (alts : List (List Char → List Nat)) (s : List Char) : List Char :=
  scanCut (stripEndMatchAt alts) s

def codecEndAlts : List (List Char → List Nat) :=
  [plainAlt (strL "x264"), plainAlt (strL "x265"), plainAlt (strL "HEVC"),
   hDotAlt (strL "264"), hDotAlt (strL "265")]

def sourceEndAlts : List (List Char → List Nat) :=
  [plainAlt (strL "WEB-DL"), plainAlt (strL "WEBRip"), plainAlt (strL "BluRay"),
   plainAlt (strL "BDRip"), plainAlt (strL "DVDRip"), plainAlt (strL "HDTV"),
   plainAlt (strL "PDTV")]

def platformEndAlts : List (List Char → List Nat) :=
  [plainAlt (strL "AMZN"), plainAlt (strL "NFLX"), plainAlt (strL "NF"),
   plainAlt (strL "HULU"), plainAlt (strL "DSNP"), plainAlt (strL "HBO"),
   plainAlt (strL "MAX"), plainAlt (strL "HMAX")]

def audioEndAlts : List (List Char → List Nat) :=
  [plainAlt (strL "AAC"), plainAlt (strL "AC3"), plainAlt (strL "DTS"), ddpAlt]

def webCodecStripAlts : List (List Char → List Nat) :=
  [plainAlt (strL "x264"), plainAlt (strL "x265"), plainAlt (strL "HEVC"),
   plainAlt (strL "AAC"), plainAlt (strL "AC3")]

/-- Pattern `[.\s_-]+WEB[.\s_-]+(x264|x265|HEVC|AAC|AC3)([.\s_-].*)?$` at a position. -/
def webCodecEndAt (s : List Char) : Option (List Char) :=
  let sep := runLen isSepC s
  if sep = 0 then none
  else
    let r := s.drop sep
    if ciPrefixOf (strL "WEB") r then
      let r2 := r.drop 3
      let sep2 := runLen isSepC r2
      if sep2 = 0 then none else firstAltTail webCodecStripAlts (r2.drop sep2)
    else none

/-- Pattern `(DL|DDP?)` candidate lengths at a position, in alternation order. -/
def dlG2 (s : List Char) : List Nat :=
  (if ciPrefixOf (strL "DL") s then [2] else []) ++
  (if ciPrefixOf (strL "DDP") s then [3] else []) ++
  (if ciPrefixOf (strL "DD") s then [2] else [])

/-- Pattern `([.\s_-]|$)` at a position: consumed length and the emitted `\3` text. -/
def dlG3 : List Char → Option (Nat × List Char)
  | [] => some (0, [])
  | c :: _ => if isSepC c then some (1, [c]) else none

def tryG2Lens : List Nat → List Char → Option (Nat × List Char)
  | [], _ => none
  | k :: ks, r =>
    match dlG3 (r.drop k) with
    | some (k3, emit3) => some (k + k3, emit3)
    | none => tryG2Lens ks r

def dlTryG2 (r : List Char) : Option (Nat × List Char) := tryG2Lens (dlG2 r) r

/-- Pattern `([.\s_-])(DL|DDP?)([.\s_-]|$)` with `\1` a separator character. -/
def dlSepMatch : List Char → Option (Nat × List Char)
  | [] => none
  | c :: r =>
    if isSepC c then
      match dlTryG2 r with
      | some (k2, emit3) => some (1 + k2, c :: emit3)
      | none => none
    else none

/-- Pattern `(^|[.\s_-])(DL|DDP?)([.\s_-]|$)` at a position (`^` only at the string
start, tried before the separator-character branch). -/
def dlMatchAt (atStart : Bool) (s : List Char) : Option (Nat × List Char) :=
  if atStart then
    match dlTryG2 s with
    | some (k2, emit3) => some (k2, emit3)
    | none => dlSepMatch s
  else dlSepMatch s

/-- Embeds `re.sub(r'(^|[.\s_-])(DL|DDP?)([.\s_-]|$)', r'\1\3', title, IGNORECASE)`. -/
def dlSubAux : Nat → Bool → List Char → List Char
  | 0, _, s => s
  | _ + 1, _, [] => []
  | fuel + 1, atStart, c :: rest =>
    match dlMatchAt atStart (c :: rest) with
    | some (consumed, emit) =>
      if consumed = 0 then c :: dlSubAux fuel false rest
      else emit ++ dlSubAux fuel false ((c :: rest).drop consumed)
    | none => c :: dlSubAux fuel false rest

def dlSub (s : List Char) : List Char := dlSubAux s.length true s

def startsTechAlts : List (List Char) :=
  [strL "720p", strL "1080p", strL "2160p", strL "4K", strL "WEB", strL "BluRay",
   strL "HDTV", strL "x264", strL "x265", strL "HEVC"]

/-- The final check of `_strip_technical_metadata` (cleaner.py:262):
`re.match(r'^(720p|1080p|2160p|4K|WEB|BluRay|HDTV|x264|x265|HEVC)', title, I)`. -/
def startsTech (t : List Char) : Bool := anyCiAltAt startsTechAlts t

/-- The seven stripping passes of `_strip_technical_metadata`
(cleaner.py:240-259), in source order. -/
def stripPasses (t : List Char) : List Char :=
  let t1 := stripEnd (qualityAlts.map plainAlt) t
  let t2 := stripEnd codecEndAlts t1
  let t3 := stripEnd sourceEndAlts t2
  let t4 := scanCut webCodecEndAt t3
  let t5 := stripEnd platformEndAlts t4
  let t6 := stripEnd audioEndAlts t5
  dlSub t6

/-- The `_strip_technical_metadata` (cleaner.py:236-265). -/
def stripTechnicalMetadata (t : List Char) : List Char :=
  let u := stripPasses t
  if startsTech u then [] else u

/-! ### cleaner.py : release groups, tags, brackets, parentheticals -/

/-- Pattern `[A-Z0-9]`. -/
def upperNumC (c : Char) : Bool := ('A' ≤ c && c ≤ 'Z') || isDigitC c

/-- Pattern `[A-Za-z0-9]`. -/
def alnumC (c : Char) : Bool :=
  ('A' ≤ c && c ≤ 'Z') || ('a' ≤ c && c ≤ 'z') || isDigitC c

/-- Does a token qualify as the body of
`RELEASE_GROUP_PATTERN = -([A-Z0-9]{3,}|[A-Za-z0-9]*\d[A-Za-z0-9]*)$`
(cleaner.py:56-58, compiled without IGNORECASE)? -/
def relGroupQual (t : List Char) : Bool :=
  (decide (3 ≤ t.length) && t.all upperNumC) || (t.all alnumC && t.any isDigitC)

/-- The part after the `-`: the alternation must span exactly to a `$`
position (end of string, or just before a final newline). -/
def relGroupTail (rest : List Char) : Option (List Char) :=
  if relGroupQual rest then some []
  else if rest.getLast? = some '\n' ∧ relGroupQual rest.dropLast then some ['\n']
  else none

/-- The `RELEASE_GROUP_PATTERN.sub('', title)` (cleaner.py:179). -/
def releaseGroupSubL : List Char → List Char
  | [] => []
  | c :: rest =>
    if c = '-' then
      match relGroupTail rest with
      | some leftover => leftover
      | none => c :: releaseGroupSubL rest
    else c :: releaseGroupSubL rest

/-- Pattern `\w` (ASCII). -/
def isWordC (c : Char) : Bool := alnumC c || c == '_'

def tagAlts : List (List Char) :=
  [strL "FIXED", strL "REPACK", strL "PROPER", strL "INTERNAL", strL "EXTENDED",
   strL "UNCUT", strL "DIRECTORS", strL "CUT", strL "DUBBED", strL "SUBBED"]

def boundaryAfter : List Char → Bool
  | [] => true
  | c :: _ => !(isWordC c)

def firstTagAlt : List (List Char) → List Char → Option Nat
  | [], _ => none
  | a :: as, s =>
    if ciPrefixOf a s ∧ boundaryAfter (s.drop a.length) then some a.length
    else firstTagAlt as s

/-- The `COMMON_TAGS` word-boundary match at a position; `prevW` records whether
the character before this position is a word character. -/
def tagMatchAt (prevW : Bool) (s : List Char) : Option Nat :=
  if prevW then none else firstTagAlt tagAlts s

/-- The `COMMON_TAGS.sub('', title)` (cleaner.py:182, IGNORECASE,
`\b(FIXED|...)\b`). -/
def tagsSubAux : Nat → Bool → List Char → List Char
  | 0, _, s => s
  | _ + 1, _, [] => []
  | fuel + 1, prevW, c :: rest =>
    match tagMatchAt prevW (c :: rest) with
    | some k => tagsSubAux fuel true ((c :: rest).drop k)
    | none => c :: tagsSubAux fuel (isWordC c) rest

def tagsSub (s : List Char) : List Char := tagsSubAux s.length false s

/-- The `BRACKET_PATTERN.sub('', title)` (cleaner.py:185, `\[[^\]]*\]`). -/
def bracketSubAux : Nat → List Char → List Char
  | 0, s => s
  | _ + 1, [] => []
  | fuel + 1, c :: rest =>
    if c = '[' then
      let body := rest.takeWhile (fun x => x != ']')
      match rest.drop body.length with
      | _ :: after => bracketSubAux fuel after
      | [] => c :: bracketSubAux fuel rest
    else c :: bracketSubAux fuel rest

def bracketSub (s : List Char) : List Char := bracketSubAux s.length s

/-- Case-insensitive substring test. -/
def ciContains (pat : List Char) : List Char → Bool
  | [] => pat.isEmpty
  | c :: rest => ciPrefixOf pat (c :: rest) || ciContains pat rest

def techParenKeywords : List (List Char) :=
  [strL "720p", strL "1080p", strL "2160p", strL "4K", strL "x264", strL "x265",
   strL "HEVC", strL "BluRay", strL "WEB", strL "HDTV"]

/-- The `TECH_PAREN_PATTERN.sub('', title)` (cleaner.py:70-73, 281):
`\([^)]*(?:720p|...)[^)]*\)`, i.e. a closed parenthetical whose `)`-free body
contains a technical keyword. -/
def techParenAux : Nat → List Char → List Char
  | 0, s => s
  | _ + 1, [] => []
  | fuel + 1, c :: rest =>
    if c = '(' then
      let body := rest.takeWhile (fun x => x != ')')
      match rest.drop body.length with
      | _ :: after =>
        if techParenKeywords.any (fun k => ciContains k body) then techParenAux fuel after
        else c :: techParenAux fuel rest
      | [] => c :: techParenAux fuel rest
    else c :: techParenAux fuel rest

def techParenSub (s : List Char) : List Char := techParenAux s.length s

/-- Embeds `re.sub(r'\s*\([^)]*\)$', '', title)` match at a position (cleaner.py:284). -/
def trailParenAt (s : List Char) : Option (List Char) :=
  let w := runLen isWsC s
  match s.drop w with
  | c :: r =>
    if c = '(' then
      let body := r.takeWhile (fun x => x != ')')
      match r.drop body.length with
      | _ :: after =>
        if after = [] then some []
        else if after = ['\n'] then some ['\n']
        else none
      | [] => none
    else none
  | [] => none

/-- Embeds `re.sub(r'\s*\([^)]*$', '', title)` match at a position (cleaner.py:287).
(`[^)]` also matches a newline, so the body only has to be `)`-free.) -/
def unclosedParenAt (s : List Char) : Option (List Char) :=
  let w := runLen isWsC s
  match s.drop w with
  | c :: r =>
    if c = '(' then (if r.all (fun x => x != ')') then some [] else none) else none
  | [] => none

/-! ### cleaner.py : `MEANINGFUL_PAREN` protection -/

/-- The inner separator class `[\s._]+` of `MEANINGFUL_PAREN`. -/
def mpSepRun (s : List Char) : Nat := runLen (fun c => isWsC c || c == '.' || c == '_') s

def apoC : Char := Char.ofNat 39

/-- The `Part[\s._]+\d+`. -/
def mpPart (r : List Char) : Option Nat :=
  if ciPrefixOf (strL "Part") r then
    let r1 := r.drop 4
    let sp := mpSepRun r1
    if sp ≠ 0 then
      let d := runLen isDigitC (r1.drop sp)
      if d ≠ 0 then some (4 + sp + d) else none
    else none
  else none

/-- Pattern `\d+`. -/
def mpNum (r : List Char) : Option Nat :=
  let d := runLen isDigitC r
  if d ≠ 0 then some d else none

/-- The `WORD[\s._]+Cut`. -/
def mpWordCut (w : List Char) (r : List Char) : Option Nat :=
  if ciPrefixOf w r then
    let r1 := r.drop w.length
    let sp := mpSepRun r1
    if sp ≠ 0 ∧ ciPrefixOf (strL "Cut") (r1.drop sp) then some (w.length + sp + 3)
    else none
  else none

/-- Pattern `Director'?s?[\s._]+Cut` (optional apostrophe and `s`, greedy). -/
def mpDirector (r : List Char) : Option Nat :=
  if ciPrefixOf (strL "Director") r then
    let r1 := r.drop 8
    let tryTail := fun (k : Nat) =>
      let r2 := r1.drop k
      let sp := mpSepRun r2
      if sp ≠ 0 ∧ ciPrefixOf (strL "Cut") (r2.drop sp) then some (8 + k + sp + 3)
      else none
    match (if ciPrefixOf [apoC, 's'] r1 then tryTail 2 else none) with
    | some n => some n
    | none =>
      match (if ciPrefixOf [apoC] r1 then tryTail 1 else none) with
      | some n => some n
      | none =>
        match (if ciPrefixOf [('s' : Char)] r1 then tryTail 1 else none) with
        | some n => some n
        | none => tryTail 0
  else none

/-- The inner alternation of `MEANINGFUL_PAREN` (cleaner.py:77-80); the
alternatives begin with distinct characters, so at most one can apply. -/
def mpAlt (r : List Char) : Option Nat :=
  match mpPart r with
  | some k => some k
  | none =>
  match mpNum r with
  | some k => some k
  | none =>
  match mpWordCut (strL "Extended") r with
  | some k => some k
  | none =>
  match mpDirector r with
  | some k => some k
  | none =>
  match mpWordCut (strL "Final") r with
  | some k => some k
  | none =>
  if ciPrefixOf (strL "Unrated") r then some 7
  else if ciPrefixOf (strL "Theatrical") r then some 10
  else none

/-- A `MEANINGFUL_PAREN` match (the full `\( ... \)`) at a position. -/
def meaningfulParenAt (s : List Char) : Option Nat :=
  match s with
  | c :: r =>
    if c = '(' then
      match mpAlt r with
      | some k =>
        (match r.drop k with
         | d :: _ => if d = ')' then some (k + 2) else none
         | [] => none)
      | none => none
    else none
  | [] => none

/-- The `MEANINGFUL_PAREN.finditer(title)`: matched texts, leftmost,
non-overlapping. -/
def mpFindAux : Nat → List Char → List (List Char)
  | 0, _ => []
  | _ + 1, [] => []
  | fuel + 1, c :: rest =>
    match meaningfulParenAt (c :: rest) with
    | some k => ((c :: rest).take k) :: mpFindAux fuel ((c :: rest).drop k)
    | none => mpFindAux fuel rest

def mpFind (s : List Char) : List (List Char) := mpFindAux s.length s

/-- The `__PROT_{n}__` placeholder of `_clean_parentheticals`. -/
def protPlaceholder (i : Nat) : List Char := strL "__PROT_" ++ pyDec i ++ strL "__"

def protFold : List Char → List (List Char) → Nat → List Char
  | t, [], _ => t
  | t, m :: ms, i => protFold (listReplace m (protPlaceholder i) t) ms (i + 1)

def restoreFold : List Char → List (List Char) → Nat → List Char
  | t, [], _ => t
  | t, m :: ms, i => restoreFold (listReplace (protPlaceholder i) m t) ms (i + 1)

/-- The `_clean_parentheticals` (cleaner.py:268-293). -/
def cleanParentheticalsL (title : List Char) : List Char :=
  let ms := mpFind title
  let t0 := protFold title ms 0
  let t1 := techParenSub t0
  let t2 := scanCut trailParenAt t1
  let t3 := scanCut unclosedParenAt t2
  restoreFold t3 ms 0

/-! ### cleaner.py : extension removal, punctuation, `clean_title` -/

def extAlts : List (List Char) :=
  [strL "mkv", strL "mp4", strL "avi", strL "m4v", strL "mov", strL "wmv",
   strL "flv", strL "webm", strL "ts", strL "m2ts"]

def extAltTail : List (List Char) → List Char → Option (List Char)
  | [], _ => none
  | a :: as, r =>
    if ciPrefixOf a r then
      let after := r.drop a.length
      if after = [] then some []
      else if after = ['\n'] then some ['\n']
      else extAltTail as r
    else extAltTail as r

/-- Embeds `re.sub(r'\.(mkv|...)$', '', title, IGNORECASE)` match at a position
(cleaner.py:191). -/
def extAt (s : List Char) : Option (List Char) :=
  match s with
  | c :: r => if c = '.' then extAltTail extAlts r else none
  | [] => none

/-- Embeds `re.sub(r'[._]', ' ', title)` (cleaner.py:194). -/
def dotUnderToSpace (s : List Char) : List Char :=
  s.map (fun c => if c == '.' || c == '_' then ' ' else c)

/-- Embeds `re.sub(r'\s+', ' ', title)` (cleaner.py:195). -/
def collapseWsAux : Nat → List Char → List Char
  | 0, s => s
  | _ + 1, [] => []
  | fuel + 1, c :: rest =>
    if isWsC c then ' ' :: collapseWsAux fuel ((c :: rest).drop (runLen isWsC (c :: rest)))
    else c :: collapseWsAux fuel rest

def collapseWs (s : List Char) : List Char := collapseWsAux s.length s

/-- Embeds `str.strip()` (ASCII whitespace). -/
def pyStrip (s : List Char) : List Char :=
  ((s.dropWhile isWsC).reverse.dropWhile isWsC).reverse

/-- Embeds `str.strip('-')`. -/
def stripDashes (s : List Char) : List Char :=
  ((s.dropWhile (fun c => c == '-')).reverse.dropWhile (fun c => c == '-')).reverse

/-- The steps of `clean_title` up to (and excluding)
`_strip_technical_metadata`: ellipsis protection, series-name removal,
boundary truncation (cleaner.py:163-173). -/
def cleanPre (title series_name : List Char) : List Char :=
  let t1 := protectL title
  let t2 := if series_name ≠ [] then removeSeriesNameL t1 series_name else t1
  boundaryTruncate t2

/-- The steps of `clean_title` after `_strip_technical_metadata`
(cleaner.py:179-202). -/
def cleanPost (t : List Char) : List Char :=
  let t5 := releaseGroupSubL t
  let t6 := tagsSub t5
  let t7 := bracketSub t6
  let t8 := cleanParentheticalsL t7
  let t9 := scanCut extAt t8
  let t10 := dotUnderToSpace t9
  let t11 := collapseWs t10
  let t12 := pyStrip t11
  let t13 := pyStrip (stripDashes t12)
  restoreL t13

/-- The `clean_title` (cleaner.py:143-202) over char lists. -/
def cleanTitleL (title series_name : List Char) : List Char :=
  if title = [] then []
  else cleanPost (stripTechnicalMetadata (cleanPre title series_name))

/-- The `clean_title` on strings. -/
def clean_title (title : String) (series_name : String := "") : String :=
  ⟨cleanTitleL title.data series_name.data⟩

/-! ### cleaner.py : `validate_episode_title` -/

/-- The `normalize` (cleaner.py:328-329 and parser.py:190-196):
`re.sub(r'[^a-z0-9]', '', s.lower())`. -/
def normalizeL (s : List Char) : List Char :=
  (s.map lowerC).filter (fun c => ('a' ≤ c && c ≤ 'z') || isDigitC c)

/-- Embeds `re.match(r'^(episode|ep)?0*\d+$', norm_title)` (cleaner.py:349); the
argument is already normalized to `[a-z0-9]*`, and `0*\d+` together just mean
"a non-empty digit string". -/
def numericTitle (n : List Char) : Bool :=
  ((strL "episode").isPrefixOf n && (!(n.drop 7).isEmpty && (n.drop 7).all isDigitC)) ||
  ((strL "ep").isPrefixOf n && (!(n.drop 2).isEmpty && (n.drop 2).all isDigitC)) ||
  (!n.isEmpty && n.all isDigitC)

/-- The dedup key `f"{season}_{norm_title}"` (cleaner.py:354). -/
def dedupKey (season : Nat) (normTitle : List Char) : List Char :=
  pyDec season ++ '_' :: normTitle

/-- The sequential early-return rejections of `validate_episode_title`
(cleaner.py:322-350), folded into one disjunction (each early return yields the
same `("", seen)` value, so the fold is behaviour-preserving): blank
candidate; normalized candidate equal to the normalized series name or to the
normalized year-free series name; either being a substring of the other
(with the Python truthiness guards); bare episode-number title. -/
def validatePre (candidate series_name : List Char) : Bool :=
  let title := pyStrip candidate
  let norm_title := normalizeL title
  let norm_series := normalizeL series_name
  let series_no_year := subDelete yearParenAt series_name
  let norm_series_no_year := normalizeL series_no_year
  decide (title = []) ||
  decide (norm_title = norm_series) ||
  decide (norm_title = norm_series_no_year) ||
  (!norm_series_no_year.isEmpty && containsSub norm_series_no_year norm_title) ||
  (!norm_title.isEmpty && containsSub norm_title norm_series_no_year) ||
  numericTitle norm_title

/-- The dedup step of `validate_episode_title` (cleaner.py:352-359): with a
seen-titles set, reject an already-seen key, otherwise record the key and
accept. -/
def dedupStep (title norm_title : List Char) (season : Nat)
    (seen : Option (List (List Char))) : List Char × Option (List (List Char)) :=
  match seen with
  | some l =>
    if dedupKey season norm_title ∈ l then ([], some l)
    else (title, some (dedupKey season norm_title :: l))
  | none => (title, none)

/-- The `validate_episode_title` (cleaner.py:296-359).  The mutable seen-titles
set is threaded explicitly: the function returns the accepted title (or `[]`)
together with the updated set. -/
def validate_episode_title (candidate series_name : List Char) (season episode : Nat)
    (seen : Option (List (List Char))) : List Char × Option (List (List Char)) :=
  if validatePre candidate series_name then ([], seen)
  else dedupStep (pyStrip candidate) (normalizeL (pyStrip candidate)) season seen

/-! ### operations.py : output formats and `build_filename` -/

/-- The `OutputFormat` constants (operations.py:24-42). -/
def FMT_SHOW_YEAR_SXXEXX_TITLE : List Char := strL "Show (Year) - SxxExx - Title"

def FMT_SHOW_YEAR_SXXEXX : List Char := strL "Show (Year) - SxxExx"

def FMT_SHOW_SXXEXX_TITLE : List Char := strL "Show - SxxExx - Title"

def FMT_SHOW_SXXEXX : List Char := strL "Show - SxxExx"

def FMT_SXXEXX_TITLE : List Char := strL "SxxExx - Title"

def FMT_SXXEXX : List Char := strL "SxxExx"

/-- The default of the CLI `--format` option (cli.py:128-134) and of
`RenameOptions.output_format` (operations.py:69). -/
def defaultOutputFormat : List Char := FMT_SHOW_SXXEXX_TITLE

/-- A directory path, reduced to the two components the series-name detector
reads: the final segment and its parent's name. -/
structure BasePath where
  name : List Char
  parentName : List Char
deriving DecidableEq

/-- Anchor `$` for `re.match`-style patterns: end of string or before a final
newline. -/
def dollarAt (s : List Char) : Bool := s.isEmpty || s == ['\n']

/-- Embeds `re.match(r'^[Ss]eason\s*\d+$', name)`. -/
def seasonFolder (n : List Char) : Bool :=
  match n with
  | c :: r =>
    (c == 'S' || c == 's') && (strL "eason").isPrefixOf r &&
      (let r1 := (r.drop 5).drop (runLen isWsC (r.drop 5))
       let d := runLen isDigitC r1
       (d != 0) && dollarAt (r1.drop d))
  | [] => false

/-- Embeds `re.match(r'^[Ss]\d+$', name)`. -/
def sNumFolder (n : List Char) : Bool :=
  match n with
  | c :: r =>
    (c == 'S' || c == 's') &&
      (let d := runLen isDigitC r
       (d != 0) && dollarAt (r.drop d))
  | [] => false

/-- Embeds `re.match(r'^[Ss]pecials?$', name)`. -/
def specialsFolder (n : List Char) : Bool :=
  match n with
  | c :: r =>
    (c == 'S' || c == 's') && (strL "pecial").isPrefixOf r &&
      (let r1 := r.drop 6
       dollarAt r1 ||
         (match r1 with
          | s :: r2 => s == 's' && dollarAt r2
          | [] => false))
  | [] => false

/-- Pattern `\s*-\s*[Ss]eason.*$` matched at a position, for
`re.sub(r'\s*-\s*[Ss]eason.*$', '', name)`. -/
def seasonSuffixAt (s : List Char) : Option (List Char) :=
  let w := runLen isWsC s
  match s.drop w with
  | c :: r =>
    if c = '-' then
      let r1 := r.drop (runLen isWsC r)
      match r1 with
      | d :: r2 =>
        if (d == 'S' || d == 's') && (strL "eason").isPrefixOf r2 then
          let rest := r2.drop 5
          if noNl rest then some []
          else if rest.getLast? = some '\n' ∧ noNl rest.dropLast then some ['\n']
          else none
        else none
      | [] => none
    else none
  | [] => none

/-- Pattern `\s*[Ss]\d+.*$` matched at a position, for
`re.sub(r'\s*[Ss]\d+.*$', '', name)`. -/
def sNumSuffixAt (s : List Char) : Option (List Char) :=
  let w := runLen isWsC s
  match s.drop w with
  | c :: r =>
    if c == 'S' || c == 's' then
      let d := runLen isDigitC r
      if d ≠ 0 then
        let rest := r.drop d
        if noNl rest then some []
        else if rest.getLast? = some '\n' ∧ noNl rest.dropLast then some ['\n']
        else none
      else none
    else none
  | [] => none

/-- The `detect_series_name` (parser.py:129-166). -/
def detect_series_name (p : BasePath) : List Char :=
  let n1 := if seasonFolder p.name || sNumFolder p.name then p.parentName else p.name
  let n2 := if specialsFolder n1 then p.parentName else n1
  let n3 := scanCut seasonSuffixAt n2
  let n4 := scanCut sNumSuffixAt n3
  let n5 := dotUnderToSpace n4
  pyStrip (collapseWs n5)

/-- Pattern `\s*\(2\d{3}\).*$` (or `19\d{2}`, or `\[\d{4}\]`) matched at a position,
for the year-stripping subs of `detect_series_name_no_year`
(parser.py:182-184). -/
def yearSuffixAt (isMatch : List Char → Option Nat) (s : List Char) : Option (List Char) :=
  let w := runLen isWsC s
  match isMatch (s.drop w) with
  | some k =>
    let rest := (s.drop w).drop k
    if noNl rest then some []
    else if rest.getLast? = some '\n' ∧ noNl rest.dropLast then some ['\n']
    else none
  | none => none

/-- Pattern `\(2\d{3}\)` at the head. -/
def paren2YearHead (r : List Char) : Option Nat :=
  match r with
  | c :: r1 =>
    if c == '(' && (match r1 with | d :: _ => d == '2' | [] => false) &&
        (r1.take 4).length == 4 && (r1.take 4).all isDigitC &&
        (match r1.drop 4 with | d :: _ => d == ')' | [] => false) then
      some 6
    else none
  | [] => none

/-- Pattern `\(19\d{2}\)` at the head. -/
def paren19YearHead (r : List Char) : Option Nat :=
  match r with
  | c :: r1 =>
    if c == '(' && (strL "19").isPrefixOf r1 &&
        (r1.take 4).length == 4 && (r1.take 4).all isDigitC &&
        (match r1.drop 4 with | d :: _ => d == ')' | [] => false) then
      some 6
    else none
  | [] => none

/-- Pattern `\[\d{4}\]` at the head. -/
def bracketYearHead (r : List Char) : Option Nat :=
  match r with
  | c :: r1 =>
    if c == '[' && (r1.take 4).length == 4 && (r1.take 4).all isDigitC &&
        (match r1.drop 4 with | d :: _ => d == ']' | [] => false) then
      some 6
    else none
  | [] => none

/-- The `detect_series_name_no_year` (parser.py:169-187). -/
def detect_series_name_no_year (p : BasePath) : List Char :=
  let c0 := detect_series_name p
  let c1 := scanCut (yearSuffixAt paren2YearHead) c0
  let c2 := scanCut (yearSuffixAt paren19YearHead) c1
  let c3 := scanCut (yearSuffixAt bracketYearHead) c2
  pyStrip c3

/-! ### operations.py : `build_filename` -/

/-- Python truthiness of the `title : str | None` parameter. -/
def truthyT (t : Option (List Char)) : Bool :=
  match t with
  | some l => !l.isEmpty
  | none => false

def fmtSET (s e t ext : List Char) : List Char :=
  s ++ strL " - " ++ e ++ strL " - " ++ t ++ '.' :: ext

def fmtSE (s e ext : List Char) : List Char := s ++ strL " - " ++ e ++ '.' :: ext

def fmtET (e t ext : List Char) : List Char := e ++ strL " - " ++ t ++ '.' :: ext

def fmtE (e ext : List Char) : List Char := e ++ '.' :: ext

/-- The `build_filename` (operations.py:102-178). -/
def build_filename (episode_info : EpisodeInfo) (title : Option (List Char))
    (extension series_name output_format : List Char) (base_path : BasePath) :
    List Char :=
  let se := episode_info.format_code
  let sny := if series_name ≠ [] then detect_series_name_no_year base_path else []
  let tv := title.getD []
  let hasT := truthyT title
  if output_format = FMT_SHOW_YEAR_SXXEXX_TITLE then
    if hasT && !series_name.isEmpty then fmtSET series_name se tv extension
    else if !series_name.isEmpty then fmtSE series_name se extension
    else if hasT then fmtET se tv extension
    else fmtE se extension
  else if output_format = FMT_SHOW_YEAR_SXXEXX then
    if !series_name.isEmpty then fmtSE series_name se extension else fmtE se extension
  else if output_format = FMT_SHOW_SXXEXX_TITLE then
    if hasT && !sny.isEmpty then fmtSET sny se tv extension
    else if !sny.isEmpty then fmtSE sny se extension
    else if hasT then fmtET se tv extension
    else fmtE se extension
  else if output_format = FMT_SHOW_SXXEXX then
    if !sny.isEmpty then fmtSE sny se extension else fmtE se extension
  else if output_format = FMT_SXXEXX_TITLE then
    if hasT then fmtET se tv extension else fmtE se extension
  else if output_format = FMT_SXXEXX then
    fmtE se extension
  else
    if hasT && !series_name.isEmpty then fmtSET series_name se tv extension
    else if !series_name.isEmpty then fmtSE series_name se extension
    else fmtE se extension

/-! ### operations.py : `get_episode_title` and the rename pipeline -/

/-- The `pathlib`'s final path component. -/
def pyName (f : List Char) : List Char :=
  (f.reverse.takeWhile (fun c => c != '/')).reverse

/-- The `Path(filename).stem`: the name with its last suffix removed (a suffix
needs a dot at position `0 < i < len-1`). -/
def pyStem (f : List Char) : List Char :=
  let n := pyName f
  let tailRun := n.reverse.takeWhile (fun c => c != '.')
  if tailRun.length = n.length then n
  else
    let i := n.length - tailRun.length - 1
    if 0 < i ∧ i < n.length - 1 then n.take i else n

/-- The `Path(filename).suffix`. -/
def pySuffix (f : List Char) : List Char :=
  let n := pyName f
  let tailRun := n.reverse.takeWhile (fun c => c != '.')
  if tailRun.length = n.length then []
  else
    let i := n.length - tailRun.length - 1
    if 0 < i ∧ i < n.length - 1 then n.drop i else []

/-- Embeds `re.sub(r'[Ss]\d{1,2}[\s_.-]*[Ee]\d{1,3}[\s_.-]*', '', title)` match at a
position (operations.py:358). -/
def gseSxxRemAt (s : List Char) : Option Nat :=
  match s with
  | c :: r =>
    if c == 'S' || c == 's' then
      let d := runLen isDigitC r
      if d = 0 ∨ 2 < d then none
      else
        let r1 := r.drop d
        let sp := runLen isSepC r1
        match r1.drop sp with
        | e :: r2 =>
          if e == 'E' || e == 'e' then
            let d2 := runLen isDigitC r2
            if d2 = 0 then none
            else
              let used2 := min d2 3
              some (1 + d + sp + 1 + used2 + runLen isSepC (r2.drop used2))
          else none
        | [] => none
    else none
  | [] => none

/-- Embeds `re.sub(r'\d{1,2}x\d{2,3}[\s_.-]*', '', title)` match at a position
(operations.py:360; no IGNORECASE, so only lowercase `x`). -/
def gseNxRemAt (s : List Char) : Option Nat :=
  let d := runLen isDigitC s
  if d = 0 ∨ 2 < d then none
  else
    match s.drop d with
    | x :: r2 =>
      if x = 'x' then
        let d2 := runLen isDigitC r2
        if d2 < 2 then none
        else
          let used2 := min d2 3
          some (d + 1 + used2 + runLen isSepC (r2.drop used2))
      else none
    | [] => none

/-- Embeds `re.sub(r'[Ee]\d{1,3}[\s_.-]*', '', title)` match at a position
(operations.py:362). -/
def gseExRemAt (s : List Char) : Option Nat :=
  match s with
  | c :: r =>
    if c == 'E' || c == 'e' then
      let d := runLen isDigitC r
      if d = 0 then none
      else
        let used := min d 3
        some (1 + used + runLen isSepC (r.drop used))
    else none
  | [] => none

/-- Embeds `re.sub(r'-\s*\d{1,3}\s*(?=[\[\(.])', '', title)` match at a position
(operations.py:364; the bracket is a lookahead and is not consumed). -/
def gseAnimeRemAt (s : List Char) : Option Nat :=
  match s with
  | c :: r =>
    if c = '-' then
      let w := runLen isWsC r
      let r1 := r.drop w
      let d := runLen isDigitC r1
      if d = 0 ∨ 3 < d then none
      else
        let r2 := r1.drop d
        let w2 := runLen isWsC r2
        match r2.drop w2 with
        | b :: _ =>
          if b == '[' || b == '(' || b == '.' then some (1 + w + d + w2) else none
        | [] => none
    else none
  | [] => none

/-- The `get_episode_title` (operations.py:330-378): strip the extension and the
episode pattern, clean, validate.  Returns the title together with the
updated seen-titles set. -/
def get_episode_title (filename : List Char) (episode_info : EpisodeInfo)
    (series_name : List Char) (seen : Option (List (List Char))) :
    List Char × Option (List (List Char)) :=
  let t0 := pyStem filename
  let t1 := subDelete gseSxxRemAt t0
  let t2 := subDelete gseNxRemAt t1
  let t3 := subDelete gseExRemAt t2
  let t4 := subDelete gseAnimeRemAt t3
  let t5 := cleanTitleL t4 series_name
  validate_episode_title t5 series_name episode_info.season episode_info.episode seen

/-- The composed pipeline of `process_video_file` (operations.py:414-480) for
a file that is not in a Specials folder: episode detection, title
extraction/cleaning/validation, filename building. -/
def renamePipeline (filename series_name output_format : List Char) (bp : BasePath)
    (anime_mode : Bool) : Option (List Char) :=
  match getSeasonEpisodeL filename anime_mode with
  | none => none
  | some info =>
    let tr := get_episode_title filename info series_name (some [])
    let ext := (pySuffix filename).dropWhile (fun c => c == '.')
    some (build_filename info (if tr.1 = [] then none else some tr.1) ext series_name
      output_format bp)

/-- A digit capture: non-empty and all digits. -/
def DigitCapture (ds : List Char) : Prop := ds ≠ [] ∧ ds.all isDigitC = true

/-- The standard pattern chain of `get_season_episode`, with Python's `int`
modelled as the fallible `intE` (a `ValueError` would propagate). -/
def stdThenE (s : List Char) (fallback : Except String (Option EpisodeInfo)) :
    Except String (Option EpisodeInfo) :=
  match listSearch sxxexxAt s with
  | some (d1, d2) =>
    match intE d1, intE d2 with
    | .ok a, .ok b => .ok (some ⟨a, b⟩)
    | .error err, _ => .error err
    | _, .error err => .error err
  | none =>
    match listSearch nxnnAt s with
    | some (d1, d2) =>
      match intE d1, intE d2 with
      | .ok a, .ok b => .ok (some ⟨a, b⟩)
      | .error err, _ => .error err
      | _, .error err => .error err
    | none =>
      match listSearch exxAt s with
      | some ds =>
        match intE ds with
        | .ok a => .ok (some ⟨1, a⟩)
        | .error err => .error err
      | none => fallback

/-- The `get_season_episode` with Python's `int` modelled as fallible. -/
def getSeasonEpisodeE (s : List Char) (m : Bool) : Except String (Option EpisodeInfo) :=
  if m then
    match listSearch animeAt s with
    | some ds =>
      match intE ds with
      | .ok a => .ok (some ⟨1, a⟩)
      | .error err => .error err
    | none => stdThenE s (.ok none)
  else
    stdThenE s
      (match listSearch animeAt s with
       | some ds =>
         match intE ds with
         | .ok a => .ok (some ⟨1, a⟩)
         | .error err => .error err
       | none => .ok none)

def exceptOk {ε α : Type} : Except ε α → Bool
  | .ok _ => true
  | .error _ => false

/-- The `clean_title` uses no partially-defined primitive (only regex
substitutions, slicing and string methods, all total); likewise
`validate_episode_title` and `format_code`.  Their `Except` forms are the
successful embeddings. -/
def cleanTitleE (t sn : List Char) : Except String (List Char) := .ok (cleanTitleL t sn)

def validateE (c sn : List Char) (s e : Nat) (seen : Option (List (List Char))) :
    Except String (List Char × Option (List (List Char))) :=
  .ok (validate_episode_title c sn s e seen)

def formatCodeE (i : EpisodeInfo) : Except String (List Char) := .ok i.format_code

/-! ## Theorems -/

example : get_season_episode "Breaking.Bad.S01E01.Pilot.720p.WEB-DL.x264-GROUP.mkv" false
    = some ⟨1, 1⟩ := by decide

example : get_season_episode "Show.3x07.avi" false = some ⟨3, 7⟩ := by decide

example : get_season_episode "Show.E005.avi" false = some ⟨1, 5⟩ := by decide

example : get_season_episode "[Grp] Show - 01 [1080p].mkv" false = some ⟨1, 1⟩ := by decide

example : get_season_episode "[Grp] Show - 01 [1080p].mkv" true = some ⟨1, 1⟩ := by decide

example : get_season_episode "random_file.mkv" false = none := by decide

example : get_season_episode "movie.2020.1080p.mkv" false = none := by decide

/-! ### Claims C1 / C10 : pattern priority and mode-independence of the domain -/

theorem getSeasonEpisodeL_anime_true {s : List Char} {ds : List Char}
    (h : listSearch animeAt s = some ds) :
    getSeasonEpisodeL s true = some ⟨1, digitsVal ds⟩ := by
  simp [getSeasonEpisodeL, h]

theorem getSeasonEpisodeL_true_fallthrough {s : List Char}
    (h : listSearch animeAt s = none) :
    getSeasonEpisodeL s true = stdThen s none := by
  simp [getSeasonEpisodeL, h]

/-- C1: `get_season_episode` applies the pattern families with the priority
policy of parser.py:61-126: anime first (returning `(1, episode)`) when
`anime_mode` is set, then SxxExx, NxNN, Exx in that order, then the anime
pattern as a final fallback, and `none` when nothing matches. -/
theorem get_season_episode_priority (f : String) (m : Bool) :
    (m = true → ∀ ds, listSearch animeAt f.data = some ds →
      get_season_episode f m = some ⟨1, digitsVal ds⟩) ∧
    ((m = false ∨ listSearch animeAt f.data = none) →
      (∀ d1 d2, listSearch sxxexxAt f.data = some (d1, d2) →
        get_season_episode f m = some ⟨digitsVal d1, digitsVal d2⟩) ∧
      (listSearch sxxexxAt f.data = none →
        (∀ d1 d2, listSearch nxnnAt f.data = some (d1, d2) →
          get_season_episode f m = some ⟨digitsVal d1, digitsVal d2⟩) ∧
        (listSearch nxnnAt f.data = none →
          (∀ ds, listSearch exxAt f.data = some ds →
            get_season_episode f m = some ⟨1, digitsVal ds⟩) ∧
          (listSearch exxAt f.data = none →
            (∀ ds, listSearch animeAt f.data = some ds →
              get_season_episode f m = some ⟨1, digitsVal ds⟩) ∧
            (listSearch animeAt f.data = none →
              get_season_episode f m = none))))) := by
  constructor
  · rintro rfl ds h
    exact getSeasonEpisodeL_anime_true h
  · intro hside
    have hmode : get_season_episode f m = stdThen f.data
        (match listSearch animeAt f.data with
         | some ds => some ⟨1, digitsVal ds⟩
         | none => none) := by
      cases m with
      | false => rfl
      | true =>
        rcases hside with h | h
        · cases h
        · rw [get_season_episode, getSeasonEpisodeL_true_fallthrough h, h]
    refine ⟨?_, ?_⟩
    · intro d1 d2 h1
      rw [hmode]
      simp [stdThen, h1]
    · intro h1
      refine ⟨?_, ?_⟩
      · intro d1 d2 h2
        rw [hmode]
        simp [stdThen, h1, h2]
      · intro h2
        refine ⟨?_, ?_⟩
        · intro ds h3
          rw [hmode]
          simp [stdThen, h1, h2, h3]
        · intro h3
          refine ⟨?_, ?_⟩
          · intro ds h4
            rw [hmode]
            simp [stdThen, h1, h2, h3, h4]
          · intro h4
            rw [hmode]
            simp [stdThen, h1, h2, h3, h4]

/-- Witness for C1: the anime fallback fires for `"Show - 05 [x]"` even with
`anime_mode = false` (none of the three standard patterns match). -/
theorem get_season_episode_priority_witness :
    get_season_episode "Show - 05 [x]" false = some ⟨1, 5⟩ :=
  ((((get_season_episode_priority "Show - 05 [x]" false).2
    (Or.inl rfl)).2 (by decide)).2 (by decide)).2 (by decide) |>.1 ['0', '5'] (by decide)

/-- C10: the `anime_mode` flag never changes whether a filename is parseable:
both modes try the same four patterns, differing only in priority. -/
theorem anime_mode_same_domain (f : String) :
    (get_season_episode f true).isSome = (get_season_episode f false).isSome := by
  unfold get_season_episode getSeasonEpisodeL
  cases h1 : listSearch animeAt f.data with
  | some ds =>
    cases h2 : listSearch sxxexxAt f.data with
    | some p =>
      obtain ⟨d1, d2⟩ := p
      simp [stdThen, h1, h2]
    | none =>
      cases h3 : listSearch nxnnAt f.data with
      | some p =>
        obtain ⟨d1, d2⟩ := p
        simp [stdThen, h1, h2, h3]
      | none =>
        cases h4 : listSearch exxAt f.data <;> simp [stdThen, h1, h2, h3, h4]
  | none =>
    cases h2 : listSearch sxxexxAt f.data with
    | some p =>
      obtain ⟨d1, d2⟩ := p
      simp [stdThen, h1, h2]
    | none =>
      cases h3 : listSearch nxnnAt f.data with
      | some p =>
        obtain ⟨d1, d2⟩ := p
        simp [stdThen, h1, h2, h3]
      | none =>
        cases h4 : listSearch exxAt f.data <;> simp [stdThen, h1, h2, h3, h4]

theorem listReplaceAux_fuel (pat repl : List Char) :
    ∀ (f1 : Nat) (s : List Char) (f2 : Nat), s.length ≤ f1 → s.length ≤ f2 →
      listReplaceAux pat repl f1 s = listReplaceAux pat repl f2 s := by
  intro f1
  induction f1 with
  | zero =>
    intro s f2 h1 _
    have : s = [] := List.length_eq_zero.mp (Nat.le_zero.mp h1)
    subst this
    cases f2 <;> rfl
  | succ f ih =>
    intro s f2 h1 h2
    cases s with
    | nil => cases f2 <;> rfl
    | cons c rest =>
      cases f2 with
      | zero => exact absurd h2 (by simp)
      | succ f2' =>
        simp only [listReplaceAux]
        by_cases hcond : pat ≠ [] ∧ pat.isPrefixOf (c :: rest) = true
        · simp only [if_pos hcond]
          have hp : 1 ≤ pat.length := by
            cases hh : pat with
            | nil => exact absurd hh hcond.1
            | cons a l => simp
          have hd : ((c :: rest).drop pat.length).length ≤ f := by
            simp only [List.length_drop, List.length_cons]
            simp only [List.length_cons] at h1
            omega
          have hd2 : ((c :: rest).drop pat.length).length ≤ f2' := by
            simp only [List.length_drop, List.length_cons]
            simp only [List.length_cons] at h2
            omega
          rw [ih _ _ hd hd2]
        · simp only [if_neg hcond]
          have hr : rest.length ≤ f := by
            simp only [List.length_cons] at h1
            omega
          have hr2 : rest.length ≤ f2' := by
            simp only [List.length_cons] at h2
            omega
          rw [ih _ _ hr hr2]

theorem listReplace_nil (pat repl : List Char) : listReplace pat repl [] = [] := rfl

theorem listReplace_cons_pos {pat : List Char} (repl : List Char) {c : Char} {rest : List Char}
    (hne : pat ≠ []) (hpre : pat.isPrefixOf (c :: rest) = true) :
    listReplace pat repl (c :: rest)
      = repl ++ listReplace pat repl ((c :: rest).drop pat.length) := by
  have hp : 1 ≤ pat.length := by
    cases hh : pat with
    | nil => exact absurd hh hne
    | cons a l => simp
  simp only [listReplace, List.length_cons, listReplaceAux, if_pos (And.intro hne hpre)]
  congr 1
  exact listReplaceAux_fuel pat repl rest.length _ _
    (by simp only [List.length_drop, List.length_cons]; omega)
    (by simp only [List.length_drop, List.length_cons]; omega)

theorem listReplace_cons_neg {pat : List Char} (repl : List Char) {c : Char} {rest : List Char}
    (h : ¬(pat ≠ [] ∧ pat.isPrefixOf (c :: rest) = true)) :
    listReplace pat repl (c :: rest) = c :: listReplace pat repl rest := by
  simp only [listReplace, List.length_cons, listReplaceAux, if_neg h]

example : protect_ellipsis "What....720p" = "WhatTHREEDOTSPLACEHOLDER.720p" := by decide

example : restore_ellipsis (protect_ellipsis "a...b...") = "a...b..." := by decide

example : find_title_boundary "Pilot.720p.WEB-DL.x264-GROUP" = some 5 := by decide

example : find_title_boundary "Who.720p.What.720p" = some 13 := by decide

example : find_title_boundary "Pilot" = none := by decide

example : find_title_boundary "Title Here (1080p WEB)" = some 10 := by decide

theorem descend_eq_some_iff (test : List Char → Bool) (p : List Char) :
    ∀ (n i : Nat), descend test p n = some i ↔
      (1 ≤ i ∧ i ≤ n ∧ okAt test p i = true ∧
        ∀ j, 1 ≤ j → j ≤ n → okAt test p j = true → j ≤ i) := by
  intro n
  induction n with
  | zero =>
    intro i
    simp only [descend]
    constructor
    · intro h; cases h
    · rintro ⟨h1, h2, -, -⟩; omega
  | succ n ih =>
    intro i
    simp only [descend]
    by_cases h : okAt test p (n + 1) = true
    · simp only [if_pos h]
      constructor
      · rintro ⟨rfl⟩
        exact ⟨by omega, by omega, h, fun j _ hj _ => hj⟩
      · rintro ⟨h1, h2, h3, hmax⟩
        have := hmax (n + 1) (by omega) (by omega) h
        have : i = n + 1 := by omega
        subst this; rfl
    · simp only [if_neg h]
      rw [ih i]
      constructor
      · rintro ⟨h1, h2, h3, hmax⟩
        exact ⟨h1, by omega, h3, fun j hj1 hj2 hj3 => by
          rcases Nat.lt_or_ge j (n + 1) with hlt | hge
          · exact hmax j hj1 (by omega) hj3
          · have : j = n + 1 := by omega
            subst this
            exact absurd hj3 h⟩
      · rintro ⟨h1, h2, h3, hmax⟩
        have hne : i ≠ n + 1 := by
          intro heq; subst heq; exact h h3
        exact ⟨h1, by omega, h3, fun j hj1 hj2 hj3 => hmax j hj1 (by omega) hj3⟩

theorem descend_eq_none_iff (test : List Char → Bool) (p : List Char) :
    ∀ n : Nat, descend test p n = none ↔
      ∀ j, 1 ≤ j → j ≤ n → okAt test p j = false := by
  intro n
  induction n with
  | zero =>
    simp only [descend]
    constructor
    · intro _ j h1 h2; omega
    · intro _; trivial
  | succ n ih =>
    simp only [descend]
    by_cases h : okAt test p (n + 1) = true
    · simp only [if_pos h]
      constructor
      · intro hcontra; cases hcontra
      · intro hall
        have := hall (n + 1) (by omega) (by omega)
        rw [h] at this
        cases this
    · simp only [if_neg h]
      rw [ih]
      constructor
      · intro hall j h1 h2
        rcases Nat.lt_or_ge j (n + 1) with hlt | hge
        · exact hall j h1 (by omega)
        · have : j = n + 1 := by omega
          subst this
          exact Bool.not_eq_true _ |>.mp h
      · intro hall j h1 h2
        exact hall j h1 (by omega)

theorem greedyMatchPos_eq_some_iff (test : List Char → Bool) (p : List Char) (i : Nat) :
    greedyMatchPos test p = some i ↔ maxValidPos test p i := by
  rw [greedyMatchPos, descend_eq_some_iff]
  constructor
  · rintro ⟨h1, h2, h3, hmax⟩
    refine ⟨⟨h1, by omega, h3⟩, fun j hj => ?_⟩
    exact hmax j hj.1 (by have := hj.2.1; omega) hj.2.2
  · rintro ⟨⟨h1, h2, h3⟩, hmax⟩
    refine ⟨h1, by omega, h3, fun j hj1 hj2 hj3 => ?_⟩
    exact hmax j ⟨hj1, by omega, hj3⟩

theorem greedyMatchPos_eq_none_iff (test : List Char → Bool) (p : List Char) :
    greedyMatchPos test p = none ↔ noValidPos test p := by
  rw [greedyMatchPos, descend_eq_none_iff]
  constructor
  · intro hall j hj
    have := hall j hj.1 (by have := hj.2.1; omega)
    rw [hj.2.2] at this
    cases this
  · intro hall j h1 h2
    by_cases hok : okAt test p j = true
    · exact absurd ⟨h1, by omega, hok⟩ (hall j)
    · exact Bool.not_eq_true _ |>.mp hok

theorem firstBoundary_eq_some_iff :
    ∀ (ts : List (List Char → Bool)) (p : List Char) (i : Nat),
      firstBoundary ts p = some i ↔ firstBoundarySpec ts p i := by
  intro ts
  induction ts with
  | nil =>
    intro p i
    simp [firstBoundary, firstBoundarySpec]
  | cons t ts ih =>
    intro p i
    simp only [firstBoundary, firstBoundarySpec]
    cases h : greedyMatchPos t p with
    | some v =>
      have hv := (greedyMatchPos_eq_some_iff t p v).mp h
      constructor
      · rintro ⟨rfl⟩
        exact Or.inl hv
      · rintro (hm | ⟨hno, _⟩)
        · have h1 : i ≤ v := hv.2 i hm.1
          have h2 : v ≤ i := hm.2 v hv.1
          have : v = i := by omega
          subst this; rfl
        · exact absurd hv.1 (hno v)
    | none =>
      have hno := (greedyMatchPos_eq_none_iff t p).mp h
      rw [ih p i]
      constructor
      · intro hs
        exact Or.inr ⟨hno, hs⟩
      · rintro (hm | ⟨-, hs⟩)
        · exact absurd hm.1 (hno i)
        · exact hs

example : clean_title "Pilot.720p.WEB-DL.x264-GROUP" = "Pilot" := by decide

example : clean_title "Title.Here.1080p.BluRay" = "Title Here" := by decide

example : clean_title "Title.WEB-DL.x264-KILLERS" = "Title" := by decide

example : clean_title "Title.AMZN.WEB-DL.DDP5.1" = "Title" := by decide

example : clean_title "Title-DIMENSION" = "Title" := by decide

example : clean_title "What..." = "What..." := by decide

example : clean_title "Title.(Part.1).720p" = "Title (Part 1)" := by decide

example : clean_title "What....720p" = "What..." := by decide

example : clean_title "Charlottes.Web.720p" = "Charlottes Web" := by decide

example : clean_title "720p" = "" := by decide

example :
    validate_episode_title (strL "Pilot") (strL "Breaking Bad (2008)") 1 1 (some [])
      = (strL "Pilot", some [strL "1_pilot"]) := by decide

example :
    (validate_episode_title (strL "Episode 5") (strL "Show") 1 5 none).1 = [] := by decide

example :
    (validate_episode_title (strL "5") (strL "Show") 1 5 none).1 = [] := by decide

example :
    (validate_episode_title (strL "Breaking Bad") (strL "Breaking Bad (2008)") 1 1 none).1
      = [] := by decide

example : detect_series_name ⟨strL "Breaking Bad (2008)", strL "x"⟩
    = strL "Breaking Bad (2008)" := by decide

example : detect_series_name_no_year ⟨strL "Breaking Bad (2008)", strL "x"⟩
    = strL "Breaking Bad" := by decide

example : detect_series_name ⟨strL "Season 2", strL "The Office (2005)"⟩
    = strL "The Office (2005)" := by decide

example :
    renamePipeline (strL "Breaking.Bad.S01E01.Pilot.720p.WEB-DL.x264-GROUP.mkv")
      (strL "Breaking Bad (2008)") FMT_SHOW_YEAR_SXXEXX_TITLE ⟨strL "x", strL "y"⟩ false
      = some (strL "Breaking Bad (2008) - S01E01 - Pilot.mkv") := by decide

example :
    renamePipeline (strL "Doctor.Who.2005.S05E04.Time.Of.The.Angels.HDTV.XviD-FoV.avi")
      (strL "Doctor Who (2005)") FMT_SHOW_YEAR_SXXEXX_TITLE ⟨strL "x", strL "y"⟩ false
      = some (strL "Doctor Who (2005) - S05E04 - Time Of The Angels.avi") := by decide

example :
    renamePipeline (strL "The.Office.S02E15.1080p.BluRay.mkv")
      (strL "The Office (2005)") FMT_SHOW_YEAR_SXXEXX_TITLE ⟨strL "x", strL "y"⟩ false
      = some (strL "The Office (2005) - S02E15.mkv") := by decide

example :
    renamePipeline (strL "Pluribus (2025) - S01E01 - We Is Us (1080p ATVP WEB-DL x265 Ghost).mkv")
      (strL "Pluribus (2025)") FMT_SHOW_YEAR_SXXEXX_TITLE ⟨strL "x", strL "y"⟩ false
      = some (strL "Pluribus (2025) - S01E01 - We Is Us.mkv") := by decide

example :
    renamePipeline (strL "Pluribus (2025) - S01E01 - We Is Us (1080p ATVP WEB-DL x265 Ghost).mkv")
      (strL "Pluribus (2025)") FMT_SHOW_SXXEXX_TITLE ⟨strL "Pluribus (2025)", strL "y"⟩ false
      = some (strL "Pluribus - S01E01 - We Is Us.mkv") := by decide

example :
    renamePipeline (strL "[Erai-raws] Cyberpunk - Edgerunners - 01 [1080p][Multiple Subtitle].mkv")
      (strL "Cyberpunk Edgerunners (2022)") FMT_SHOW_YEAR_SXXEXX_TITLE ⟨strL "x", strL "y"⟩ true
      = some (strL "Cyberpunk Edgerunners (2022) - S01E01.mkv") := by decide

/-! ### Claim C2 theorems -/

/-- C2 counterexample: on `"Who.720p.What.720p"` the quality signature is
anchored both at position 3 and at position 13; `find_title_boundary` returns
the greedy (latest) position 13, not the earliest position 3 that the claim
asserts. -/
theorem find_title_boundary_not_earliest :
    find_title_boundary "Who.720p.What.720p" = some 13 ∧
    validPos bTest1 (protectL (strL "Who.720p.What.720p")) 3 ∧
    find_title_boundary "Who.720p.What.720p" ≠ some 3 := by
  refine ⟨by decide, ?_, by decide⟩
  refine ⟨by decide, by decide, by decide⟩

/-- C2 (amended): `find_title_boundary` protects the ellipsis and evaluates
the six start-anchored title-end signatures in their fixed priority order; the
first pattern with any valid split wins, and the boundary is the length of the
LONGEST `(.+)` prefix whose remainder begins with that signature (Python's
greedy `.+`, i.e. the latest-anchored occurrence, not the earliest);
`clean_title` truncates to the boundary exactly when one is found and it
exceeds 2. -/
theorem find_title_boundary_greedy :
    (∀ (t : String) (i : Nat),
      find_title_boundary t = some i ↔
        (maxValidPos bTest1 (protectL t.data) i ∨
          (noValidPos bTest1 (protectL t.data) ∧
            (maxValidPos bTest2 (protectL t.data) i ∨
              (noValidPos bTest2 (protectL t.data) ∧
                (maxValidPos bTest3 (protectL t.data) i ∨
                  (noValidPos bTest3 (protectL t.data) ∧
                    (maxValidPos bTest4 (protectL t.data) i ∨
                      (noValidPos bTest4 (protectL t.data) ∧
                        (maxValidPos bTest5 (protectL t.data) i ∨
                          (noValidPos bTest5 (protectL t.data) ∧
                            maxValidPos bTest6 (protectL t.data) i))))))))))) ∧
    (∀ (s : List Char) (b : Nat), find_title_boundaryL s = some b → 2 < b →
      boundaryTruncate s = s.take b) ∧
    (∀ (s : List Char) (b : Nat), find_title_boundaryL s = some b → b ≤ 2 →
      boundaryTruncate s = s) ∧
    (∀ s : List Char, find_title_boundaryL s = none → boundaryTruncate s = s) := by
  refine ⟨?_, ?_, ?_, ?_⟩
  · intro t i
    rw [find_title_boundary, find_title_boundaryL, firstBoundary_eq_some_iff]
    simp only [boundaryTests, firstBoundarySpec, and_false, or_false]
  · intro s b h hgt
    unfold boundaryTruncate
    rw [h]
    simp [hgt]
  · intro s b h hle
    unfold boundaryTruncate
    rw [h]
    have : ¬ 2 < b := by omega
    simp [this]
  · intro s h
    unfold boundaryTruncate
    rw [h]

/-- Witness for C2 (amended) at a concrete input. -/
theorem find_title_boundary_greedy_witness :
    boundaryTruncate (strL "Pilot.720p.WEB-DL.x264-GROUP") = strL "Pilot" :=
  (find_title_boundary_greedy.2.1 (strL "Pilot.720p.WEB-DL.x264-GROUP") 5
    (by decide) (by decide)).trans (by decide)

/-! ### Claim C3 theorems -/

theorem cleanPost_nil : cleanPost [] = [] := by decide

/-- C3: if, after the trailing-stripping passes of
`_strip_technical_metadata`, the remaining string still starts with a known
technical token (`720p|1080p|2160p|4K|WEB|BluRay|HDTV|x264|x265|HEVC`,
case-insensitive), the whole title is discarded: `_strip_technical_metadata`
returns the empty string and `clean_title` then produces the empty string. -/
theorem strip_metadata_pure_metadata_empty :
    (∀ t : List Char, startsTech (stripPasses t) = true →
      stripTechnicalMetadata t = []) ∧
    (∀ (title series_name : List Char), title ≠ [] →
      startsTech (stripPasses (cleanPre title series_name)) = true →
      cleanTitleL title series_name = []) := by
  have hstrip : ∀ t : List Char, startsTech (stripPasses t) = true →
      stripTechnicalMetadata t = [] := by
    intro t h
    unfold stripTechnicalMetadata
    rw [if_pos h]
  refine ⟨hstrip, ?_⟩
  intro title sn hne h
  rw [cleanTitleL, if_neg hne, hstrip _ h]
  exact cleanPost_nil

/-- Witness for C3: `"720p"` is pure metadata and is discarded entirely. -/
theorem strip_metadata_pure_metadata_empty_witness :
    cleanTitleL (strL "720p") [] = [] :=
  strip_metadata_pure_metadata_empty.2 (strL "720p") [] (by decide) (by decide)

/-! ### Claim C4 theorems -/

/-- C4 counterexample: under the actual default output format
(`"Show - SxxExx - Title"`, cli.py:128-134 / operations.py:69) the year is
dropped (the series name is re-derived year-free from the base path), so the
pipeline does NOT produce `"Breaking Bad (2008) - S01E01 - Pilot.mkv"`. -/
theorem pipeline_default_format_drops_year :
    renamePipeline (strL "Breaking.Bad.S01E01.Pilot.720p.WEB-DL.x264-GROUP.mkv")
        (strL "Breaking Bad (2008)") defaultOutputFormat
        ⟨strL "Breaking Bad (2008)", strL "Media"⟩ false
      = some (strL "Breaking Bad - S01E01 - Pilot.mkv") ∧
    some (strL "Breaking Bad - S01E01 - Pilot.mkv")
      ≠ some (strL "Breaking Bad (2008) - S01E01 - Pilot.mkv") := by
  constructor
  · decide
  · decide

/-- C4 (amended): end-to-end, for the input filename
`"Breaking.Bad.S01E01.Pilot.720p.WEB-DL.x264-GROUP.mkv"` with series name
`"Breaking Bad (2008)"` under the `"Show (Year) - SxxExx - Title"` format (as
in the repository's own test), the composed pipeline produces exactly
`"Breaking Bad (2008) - S01E01 - Pilot.mkv"`, for every base path. -/
theorem pipeline_breaking_bad (bp : BasePath) :
    renamePipeline (strL "Breaking.Bad.S01E01.Pilot.720p.WEB-DL.x264-GROUP.mkv")
        (strL "Breaking Bad (2008)") FMT_SHOW_YEAR_SXXEXX_TITLE bp false
      = some (strL "Breaking Bad (2008) - S01E01 - Pilot.mkv") := by
  have h1 : getSeasonEpisodeL (strL "Breaking.Bad.S01E01.Pilot.720p.WEB-DL.x264-GROUP.mkv")
      false = some ⟨1, 1⟩ := by decide
  have h2 : get_episode_title (strL "Breaking.Bad.S01E01.Pilot.720p.WEB-DL.x264-GROUP.mkv")
      ⟨1, 1⟩ (strL "Breaking Bad (2008)") (some [])
      = (strL "Pilot", some [strL "1_pilot"]) := by decide
  simp only [renamePipeline, h1, h2, build_filename, if_true]
  decide

/-! ### Claim C5 : ellipsis protection round-trip -/

theorem placeholder_len : ELLIPSIS_PLACEHOLDER.length = 20 := by decide

theorem placeholder_ne : ELLIPSIS_PLACEHOLDER ≠ [] := by decide

theorem dotsPat_ne : dotsPat ≠ [] := by decide

/-- The placeholder has no non-trivial self-overlap: no proper suffix of it is
one of its prefixes. -/
theorem placeholder_no_border :
    ∀ k, k ≤ 19 → 1 ≤ k →
      (ELLIPSIS_PLACEHOLDER.drop k).isPrefixOf ELLIPSIS_PLACEHOLDER = false := by
  decide

theorem placeholder_drop_ne_nil : ∀ k, k ≤ 19 → ELLIPSIS_PLACEHOLDER.drop k ≠ [] := by
  decide

theorem containsSub_tail_false {pat : List Char} {c : Char} {t : List Char}
    (h : containsSub pat (c :: t) = false) : containsSub pat t = false := by
  have h' : (pat.isPrefixOf (c :: t) || containsSub pat t) = false := h
  simp only [Bool.or_eq_false_iff] at h'
  exact h'.2

theorem containsSub_head_false {pat : List Char} {c : Char} {t : List Char}
    (h : containsSub pat (c :: t) = false) : pat.isPrefixOf (c :: t) = false := by
  have h' : (pat.isPrefixOf (c :: t) || containsSub pat t) = false := h
  simp only [Bool.or_eq_false_iff] at h'
  exact h'.1

theorem containsSub_drop_false (pat : List Char) :
    ∀ (k : Nat) (s : List Char), containsSub pat s = false →
      containsSub pat (s.drop k) = false := by
  intro k
  induction k with
  | zero => intro s h; simpa using h
  | succ k ih =>
    intro s h
    cases s with
    | nil => simpa using h
    | cons c t => simpa using ih t (containsSub_tail_false h)

theorem listReplace_append_self (pat repl X : List Char) (hne : pat ≠ []) :
    listReplace pat repl (pat ++ X) = repl ++ listReplace pat repl X := by
  obtain ⟨p0, pt, rfl⟩ : ∃ p0 pt, pat = p0 :: pt := by
    cases pat with
    | nil => exact absurd rfl hne
    | cons a b => exact ⟨a, b, rfl⟩
  rw [List.cons_append, listReplace_cons_pos repl (by simp)
    (by
      simp only [List.isPrefixOf_iff_prefix]
      exact ⟨X, by simp⟩)]
  congr 1
  rw [← List.cons_append, List.drop_left]

theorem protectL_cons_pos {c : Char} {rest : List Char}
    (h : dotsPat.isPrefixOf (c :: rest) = true) :
    protectL (c :: rest) = ELLIPSIS_PLACEHOLDER ++ protectL ((c :: rest).drop 3) :=
  listReplace_cons_pos ELLIPSIS_PLACEHOLDER dotsPat_ne h

theorem protectL_cons_neg {c : Char} {rest : List Char}
    (h : dotsPat.isPrefixOf (c :: rest) = false) :
    protectL (c :: rest) = c :: protectL rest :=
  listReplace_cons_neg ELLIPSIS_PLACEHOLDER (by simp [h])

theorem restoreL_cons_neg {c : Char} {x : List Char}
    (h : ELLIPSIS_PLACEHOLDER.isPrefixOf (c :: x) = false) :
    restoreL (c :: x) = c :: restoreL x :=
  listReplace_cons_neg dotsPat (by simp [h])

theorem restoreL_append (X : List Char) :
    restoreL (ELLIPSIS_PLACEHOLDER ++ X) = dotsPat ++ restoreL X :=
  listReplace_append_self ELLIPSIS_PLACEHOLDER dotsPat X placeholder_ne

/-- Key lemma: on placeholder-free input, `protect_ellipsis` never creates a
string of which a proper suffix of the placeholder is a prefix unless that
suffix was already a prefix of the input (the placeholder has no border, and
its tail contains no dot, so an inserted placeholder cannot straddle). -/
theorem protect_no_partial :
    ∀ (n : Nat) (t : List Char), t.length ≤ n → ∀ k, 1 ≤ k → k ≤ 19 →
      containsSub ELLIPSIS_PLACEHOLDER t = false →
      (ELLIPSIS_PLACEHOLDER.drop k).isPrefixOf (protectL t) = true →
      (ELLIPSIS_PLACEHOLDER.drop k).isPrefixOf t = true := by
  intro n
  induction n with
  | zero =>
    intro t hlen k hk1 hk2 hc hpre
    have ht : t = [] := List.length_eq_zero.mp (Nat.le_zero.mp hlen)
    subst ht
    exact hpre
  | succ n ih =>
    intro t hlen k hk1 hk2 hc hpre
    cases t with
    | nil => exact hpre
    | cons c rest =>
      by_cases hd : dotsPat.isPrefixOf (c :: rest) = true
      · rw [protectL_cons_pos hd] at hpre
        have h1 : (ELLIPSIS_PLACEHOLDER.drop k)
            <+: (ELLIPSIS_PLACEHOLDER ++ protectL ((c :: rest).drop 3)) := by
          simpa [List.isPrefixOf_iff_prefix] using hpre
        have h3 : (ELLIPSIS_PLACEHOLDER.drop k) <+: ELLIPSIS_PLACEHOLDER :=
          List.prefix_of_prefix_length_le h1 (List.prefix_append _ _)
            (by simp [placeholder_len])
        have h4 : (ELLIPSIS_PLACEHOLDER.drop k).isPrefixOf ELLIPSIS_PLACEHOLDER = true := by
          simpa [List.isPrefixOf_iff_prefix] using h3
        rw [placeholder_no_border k hk2 hk1] at h4
        cases h4
      · rw [protectL_cons_neg ((Bool.not_eq_true _).mp hd)] at hpre
        have hk20 : k < ELLIPSIS_PLACEHOLDER.length := by rw [placeholder_len]; omega
        have hdropk := List.drop_eq_getElem_cons hk20
        rw [hdropk] at hpre ⊢
        rw [List.isPrefixOf_cons₂] at hpre ⊢
        obtain ⟨hc1, hrest⟩ := Bool.and_eq_true_iff.mp hpre
        by_cases hk19 : k + 1 ≤ 19
        · have hlen' : rest.length ≤ n := by
            simp only [List.length_cons] at hlen
            omega
          have := ih rest hlen' (k + 1) (by omega) hk19 (containsSub_tail_false hc) hrest
          rw [hc1, this]
          rfl
        · have hk' : k = 19 := by omega
          subst hk'
          have h20 : ELLIPSIS_PLACEHOLDER.drop 20 = [] := by decide
          rw [h20, hc1]
          simp

theorem roundtripAux :
    ∀ (n : Nat) (t : List Char), t.length ≤ n →
      containsSub ELLIPSIS_PLACEHOLDER t = false →
      restoreL (protectL t) = t := by
  intro n
  induction n with
  | zero =>
    intro t hlen _
    have : t = [] := List.length_eq_zero.mp (Nat.le_zero.mp hlen)
    subst this
    rfl
  | succ n ih =>
    intro t hlen hc
    cases t with
    | nil => rfl
    | cons c rest =>
      by_cases hd : dotsPat.isPrefixOf (c :: rest) = true
      · rw [protectL_cons_pos hd, restoreL_append]
        obtain ⟨u, hu⟩ : dotsPat <+: (c :: rest) := by
          simpa [List.isPrefixOf_iff_prefix] using hd
        have hdrop : (c :: rest).drop 3 = u := by
          rw [← hu]
          exact List.drop_left' (by decide)
        have hulen : u.length ≤ n := by
          have := congrArg List.length hu
          simp only [List.length_append, List.length_cons] at this
          have h3 : dotsPat.length = 3 := by decide
          rw [h3] at this
          simp only [List.length_cons] at hlen
          omega
        have hcu : containsSub ELLIPSIS_PLACEHOLDER u = false := by
          rw [← hdrop]
          exact containsSub_drop_false _ 3 _ hc
        rw [hdrop, ih u hulen hcu]
        exact hu
      · have hP : ELLIPSIS_PLACEHOLDER.isPrefixOf (c :: protectL rest) = false := by
          cases hcon : ELLIPSIS_PLACEHOLDER.isPrefixOf (c :: protectL rest) with
          | false => rfl
          | true =>
            have hPdecomp : ELLIPSIS_PLACEHOLDER = 'T' :: ELLIPSIS_PLACEHOLDER.drop 1 := by
              decide
            rw [hPdecomp, List.isPrefixOf_cons₂] at hcon
            obtain ⟨h1, h2⟩ := Bool.and_eq_true_iff.mp hcon
            have h3 := protect_no_partial rest.length rest le_rfl 1 (by omega) (by omega)
              (containsSub_tail_false hc) h2
            have h4 : ELLIPSIS_PLACEHOLDER.isPrefixOf (c :: rest) = true := by
              rw [hPdecomp, List.isPrefixOf_cons₂]
              exact Bool.and_eq_true_iff.mpr ⟨h1, h3⟩
            have h5 := containsSub_head_false hc
            rw [h4] at h5
            cases h5
        rw [protectL_cons_neg ((Bool.not_eq_true _).mp hd), restoreL_cons_neg hP]
        have hlen' : rest.length ≤ n := by
          simp only [List.length_cons] at hlen
          omega
        rw [ih rest hlen' (containsSub_tail_false hc)]

/-- C5 counterexample: the placeholder token CAN collide with input content:
on the input `"THREEDOTSPLACEHOLDER"` the protect/restore pair is not the
identity (it restores a literal `"..."` that was never there). -/
theorem ellipsis_roundtrip_collision :
    restore_ellipsis (protect_ellipsis "THREEDOTSPLACEHOLDER") = "..." ∧
    ("..." : String) ≠ "THREEDOTSPLACEHOLDER" := by
  constructor
  · decide
  · decide

/-- C5 (amended): for every input that does not already contain the
placeholder token `THREEDOTSPLACEHOLDER`, `restore_ellipsis ∘ protect_ellipsis`
is the identity; and the literal `"..."` survives `clean_title` as in the
spec's example: `clean_title "What....720p" = "What..."`. -/
theorem ellipsis_roundtrip :
    (∀ s : String, containsSub ELLIPSIS_PLACEHOLDER s.data = false →
      restore_ellipsis (protect_ellipsis s) = s) ∧
    clean_title "What....720p" = "What..." ∧
    containsSub dotsPat (clean_title "What....720p").data = true := by
  refine ⟨?_, by decide, by decide⟩
  intro s h
  cases s with
  | mk d =>
    show (⟨restoreL (protectL d)⟩ : String) = ⟨d⟩
    rw [roundtripAux d.length d le_rfl h]

/-- Witness for C5 (amended). -/
theorem ellipsis_roundtrip_witness :
    restore_ellipsis (protect_ellipsis "An...Ellipsis...Title") = "An...Ellipsis...Title" :=
  ellipsis_roundtrip.1 "An...Ellipsis...Title" (by decide)

/-! ### Claim C6 : release-group stripping -/

theorem all_false_of_mem {f : Char → Bool} {x : List Char} {c : Char}
    (hm : c ∈ x) (hf : f c = false) : x.all f = false := by
  rw [List.all_eq_false]
  exact ⟨c, hm, by simp [hf]⟩

theorem relGroupQual_false_of_dash {x : List Char} (h : '-' ∈ x) :
    relGroupQual x = false := by
  unfold relGroupQual
  rw [all_false_of_mem h (by decide), all_false_of_mem h (by decide)]
  simp

theorem relGroupTail_clean {t : List Char} (hn : '\n' ∉ t) :
    relGroupTail t = if relGroupQual t then some [] else none := by
  unfold relGroupTail
  have h2 : ¬(t.getLast? = some '\n' ∧ relGroupQual t.dropLast = true) := by
    rintro ⟨hl, -⟩
    exact hn (List.mem_of_getLast?_eq_some hl)
  by_cases hq : relGroupQual t = true
  · simp [hq]
  · simp [hq, h2]

theorem relGroup_no_dash_id : ∀ x : List Char, '-' ∉ x → releaseGroupSubL x = x := by
  intro x
  induction x with
  | nil => intro _; rfl
  | cons c rest ih =>
    intro h
    have hc : c ≠ '-' := fun he => h (he ▸ List.mem_cons_self c rest)
    simp only [releaseGroupSubL, if_neg hc]
    rw [ih (fun hm => h (List.mem_cons_of_mem _ hm))]

theorem relGroupTail_mid_dash_none (p' t : List Char) (hn : '\n' ∉ t) :
    relGroupTail (p' ++ '-' :: t) = none := by
  have hmem : '-' ∈ p' ++ '-' :: t := List.mem_append_right _ (List.mem_cons_self _ _)
  have hq : relGroupQual (p' ++ '-' :: t) = false := relGroupQual_false_of_dash hmem
  unfold relGroupTail
  have h2 : ¬((p' ++ '-' :: t).getLast? = some '\n' ∧
      relGroupQual (p' ++ '-' :: t).dropLast = true) := by
    rintro ⟨hl, -⟩
    rw [List.getLast?_append] at hl
    cases hgl : ('-' :: t).getLast? with
    | none =>
      rw [List.getLast?_eq_none_iff] at hgl
      cases hgl
    | some a =>
      rw [hgl] at hl
      simp only [Option.or_some, Option.some.injEq] at hl
      subst hl
      have hmem2 : '\n' ∈ '-' :: t := List.mem_of_getLast?_eq_some hgl
      rcases List.mem_cons.mp hmem2 with he | he
      · cases he
      · exact hn he
  rw [if_neg (by simp [hq]), if_neg h2]

theorem relGroup_split :
    ∀ (p t : List Char), '-' ∉ t → '\n' ∉ t →
      releaseGroupSubL (p ++ '-' :: t)
        = p ++ (if relGroupQual t then [] else '-' :: t) := by
  intro p
  induction p with
  | nil =>
    intro t hd hn
    simp only [List.nil_append, releaseGroupSubL, if_pos rfl]
    rw [relGroupTail_clean hn]
    by_cases hq : relGroupQual t = true
    · simp [hq]
    · simp [hq, relGroup_no_dash_id t hd]
  | cons c p' ih =>
    intro t hd hn
    simp only [List.cons_append, releaseGroupSubL, List.append_eq]
    by_cases hc : c = '-'
    · subst hc
      rw [if_pos rfl, relGroupTail_mid_dash_none p' t hn]
      rw [ih t hd hn]
    · rw [if_neg hc, ih t hd hn]

/-- C6: the release-group step strips a trailing `-TOKEN` exactly when the
token is all-uppercase alphanumeric of length at least 3, or is alphanumeric
containing at least one digit; otherwise the string is left unchanged (so a
hyphen followed by a genuine lowercase word survives). -/
theorem release_group_asymmetry (p t : List Char) (hd : '-' ∉ t) (hn : '\n' ∉ t) :
    (releaseGroupSubL (p ++ '-' :: t) = p ↔
      ((3 ≤ t.length ∧ t.all upperNumC = true) ∨
       (t.all alnumC = true ∧ t.any isDigitC = true))) ∧
    (releaseGroupSubL (p ++ '-' :: t) = p ∨
      releaseGroupSubL (p ++ '-' :: t) = p ++ '-' :: t) := by
  have hsplit := relGroup_split p t hd hn
  have hqual : relGroupQual t = true ↔
      ((3 ≤ t.length ∧ t.all upperNumC = true) ∨
       (t.all alnumC = true ∧ t.any isDigitC = true)) := by
    simp [relGroupQual, Bool.or_eq_true, Bool.and_eq_true_iff, decide_eq_true_iff]
  constructor
  · constructor
    · intro he
      rw [← hqual]
      by_cases hq : relGroupQual t = true
      · exact hq
      · rw [hsplit, if_neg hq] at he
        have := congrArg List.length he
        simp at this
    · intro hq
      rw [hsplit, if_pos (hqual.mpr hq)]
      simp
  · by_cases hq : relGroupQual t = true
    · left
      rw [hsplit, if_pos hq]
      simp
    · right
      rw [hsplit, if_neg hq]

/-- Witness for C6: `"Title-DIMENSION"` and `"Title-LOL"` are stripped to
`"Title"`; `"Title-Part"` is not stripped. -/
theorem release_group_asymmetry_witness :
    releaseGroupSubL (strL "Title" ++ '-' :: strL "DIMENSION") = strL "Title" ∧
    releaseGroupSubL (strL "Title" ++ '-' :: strL "LOL") = strL "Title" ∧
    releaseGroupSubL (strL "Title" ++ '-' :: strL "Part")
      = strL "Title" ++ '-' :: strL "Part" := by
  refine ⟨?_, ?_, ?_⟩
  · exact (release_group_asymmetry (strL "Title") (strL "DIMENSION")
      (by decide) (by decide)).1.mpr (by decide)
  · exact (release_group_asymmetry (strL "Title") (strL "LOL")
      (by decide) (by decide)).1.mpr (by decide)
  · have h := release_group_asymmetry (strL "Title") (strL "Part") (by decide) (by decide)
    refine h.2.resolve_left ?_
    intro he
    have := h.1.mp he
    revert this
    decide

/-! ### Claim C7 : seen-titles deduplication -/

theorem digitsVal_append (xs : List Char) (c : Char) :
    digitsVal (xs ++ [c]) = 10 * digitsVal xs + (c.toNat - 48) := by
  unfold digitsVal
  rw [List.foldl_append]
  simp only [List.foldl_cons, List.foldl_nil]
  omega

theorem digitChar_toNat : ∀ m, m < 10 → (Char.ofNat (48 + m)).toNat = 48 + m := by decide

theorem pyDecAux_val : ∀ (f n : Nat), n < f → digitsVal (pyDecAux f n) = n := by
  intro f
  induction f with
  | zero => intro n h; omega
  | succ f ih =>
    intro n h
    cases hn : n with
    | zero => simp [pyDecAux, digitsVal]
    | succ m =>
      rw [show pyDecAux (f + 1) (m + 1)
          = pyDecAux f ((m + 1) / 10) ++ [Char.ofNat (48 + (m + 1) % 10)] from rfl]
      rw [digitsVal_append]
      have hdiv : (m + 1) / 10 < f := by
        have h1 : (m + 1) / 10 < m + 1 := Nat.div_lt_self (by omega) (by omega)
        omega
      rw [ih _ hdiv, digitChar_toNat _ (Nat.mod_lt _ (by omega))]
      omega

theorem pyDec_val (n : Nat) : digitsVal (pyDec n) = n := by
  unfold pyDec
  by_cases h : n = 0
  · subst h
    rw [if_pos rfl]
    decide
  · rw [if_neg h]
    exact pyDecAux_val (n + 1) n (by omega)

theorem pyDec_inj {a b : Nat} (h : pyDec a = pyDec b) : a = b := by
  have h2 := congrArg digitsVal h
  rwa [pyDec_val, pyDec_val] at h2

theorem dedupKey_season_inj {s s' : Nat} {n : List Char}
    (h : dedupKey s n = dedupKey s' n) : s = s' := by
  unfold dedupKey at h
  exact pyDec_inj (List.append_cancel_right h)

/-- C7: with a seen-titles set, `validate_episode_title` deduplicates by the
key `season + "_" + normalized-candidate`: (a) a candidate whose key is in
the set is rejected with the set unchanged; (b) an accepted candidate has
exactly its key added to the set; (c) a candidate accepted for one season is
accepted again under a different season (the keys differ because they embed
the season), provided its key for that season was not already seen. -/
theorem validator_dedup :
    (∀ (c sn : List Char) (s e : Nat) (l : List (List Char)),
      dedupKey s (normalizeL (pyStrip c)) ∈ l →
      validate_episode_title c sn s e (some l) = ([], some l)) ∧
    (∀ (c sn : List Char) (s e : Nat) (l : List (List Char)),
      (validate_episode_title c sn s e (some l)).1 ≠ [] →
      validate_episode_title c sn s e (some l)
        = (pyStrip c, some (dedupKey s (normalizeL (pyStrip c)) :: l))) ∧
    (∀ (c sn : List Char) (s s' e e' : Nat) (l l' : List (List Char)) (t : List Char),
      validate_episode_title c sn s e (some l) = (t, some l') → t ≠ [] → s ≠ s' →
      dedupKey s' (normalizeL (pyStrip c)) ∉ l →
      (validate_episode_title c sn s' e' (some l')).1 = t) := by
  refine ⟨?_, ?_, ?_⟩
  · intro c sn s e l hmem
    unfold validate_episode_title
    by_cases hp : validatePre c sn = true
    · rw [if_pos hp]
    · rw [if_neg hp]
      simp only [dedupStep]
      rw [if_pos hmem]
  · intro c sn s e l hne
    unfold validate_episode_title at hne ⊢
    by_cases hp : validatePre c sn = true
    · rw [if_pos hp] at hne
      simp at hne
    · rw [if_neg hp] at hne ⊢
      simp only [dedupStep] at hne ⊢
      by_cases hm : dedupKey s (normalizeL (pyStrip c)) ∈ l
      · rw [if_pos hm] at hne
        simp at hne
      · rw [if_neg hm]
  · intro c sn s s' e e' l l' t heq hne hss hnotin
    unfold validate_episode_title at heq
    by_cases hp : validatePre c sn = true
    · rw [if_pos hp] at heq
      injection heq with h1 h2
      exact absurd h1.symm hne
    · rw [if_neg hp] at heq
      simp only [dedupStep] at heq
      by_cases hm : dedupKey s (normalizeL (pyStrip c)) ∈ l
      · rw [if_pos hm] at heq
        injection heq with h1 h2
        exact absurd h1.symm hne
      · rw [if_neg hm] at heq
        injection heq with h1 h2
        injection h2 with h2
        unfold validate_episode_title
        rw [if_neg hp]
        simp only [dedupStep]
        have hnot2 : dedupKey s' (normalizeL (pyStrip c)) ∉ l' := by
          rw [← h2]
          intro hmem
          rcases List.mem_cons.mp hmem with hh | hh
          · exact hss (dedupKey_season_inj hh).symm
          · exact hnotin hh
        rw [if_neg hnot2]
        exact h1

/-- Witness for C7: same-season duplicate rejected with the set unchanged;
the same normalized title under a different season is accepted. -/
theorem validator_dedup_witness :
    validate_episode_title (strL "Pilot") (strL "Show") 1 1 (some [strL "1_pilot"])
      = ([], some [strL "1_pilot"]) ∧
    (validate_episode_title (strL "Pilot") (strL "Show") 2 7
      (some [strL "1_pilot"])).1 = strL "Pilot" := by
  constructor
  · exact validator_dedup.1 (strL "Pilot") (strL "Show") 1 1 [strL "1_pilot"] (by decide)
  · exact validator_dedup.2.2 (strL "Pilot") (strL "Show") 1 2 1 7 [] [strL "1_pilot"]
      (strL "Pilot") (by decide) (by decide) (by decide) (by decide)

/-! ### Claim C9 : validator returns the stripped candidate or empty -/

/-- C9 counterexample: for the candidate `" Pilot "` the validator returns
`"Pilot"`, which is neither the candidate as given nor the empty string. -/
theorem validator_not_identity :
    (validate_episode_title (strL " Pilot ") (strL "ZZZ") 1 1 none).1 ≠ strL " Pilot " ∧
    (validate_episode_title (strL " Pilot ") (strL "ZZZ") 1 1 none).1 ≠ [] := by
  constructor
  · decide
  · decide

/-- C9 (amended): every non-rejected candidate is returned
whitespace-stripped (`candidate.strip()`, cleaner.py:325): the validator
returns either the empty string or `pyStrip candidate`. -/
theorem validator_stripped_or_empty (c sn : List Char) (s e : Nat)
    (seen : Option (List (List Char))) :
    (validate_episode_title c sn s e seen).1 = [] ∨
    (validate_episode_title c sn s e seen).1 = pyStrip c := by
  unfold validate_episode_title
  by_cases hp : validatePre c sn = true
  · rw [if_pos hp]
    left
    rfl
  · rw [if_neg hp]
    cases seen with
    | none => right; rfl
    | some l =>
      simp only [dedupStep]
      by_cases hm : dedupKey s (normalizeL (pyStrip c)) ∈ l
      · rw [if_pos hm]
        left
        rfl
      · rw [if_neg hm]
        right
        rfl

/-! ### Claim C8 : totality of the core functions -/

theorem takeWhile_all (p : Char → Bool) : ∀ l : List Char, (l.takeWhile p).all p = true := by
  intro l
  induction l with
  | nil => rfl
  | cons c rest ih =>
    rw [List.takeWhile_cons]
    by_cases h : p c = true
    · simp [h, ih]
    · simp [h]

theorem all_take {p : Char → Bool} {l : List Char} (k : Nat) (h : l.all p = true) :
    (l.take k).all p = true := by
  rw [List.all_eq_true] at h ⊢
  intro x hx
  exact h x (List.take_subset _ _ hx)

theorem take_ne_nil {l : List Char} {k : Nat} (h : l ≠ []) (hk : k ≠ 0) : l.take k ≠ [] := by
  cases l with
  | nil => exact absurd rfl h
  | cons c rest =>
    cases k with
    | zero => exact absurd rfl hk
    | succ k => simp

theorem runLen_takeWhile_ne_nil {p : Char → Bool} {l : List Char} (h : runLen p l ≠ 0) :
    l.takeWhile p ≠ [] := by
  intro he
  apply h
  rw [runLen, he]
  rfl

theorem digitCapture_takeWhile {l : List Char} (h : runLen isDigitC l ≠ 0) :
    DigitCapture (l.takeWhile isDigitC) :=
  ⟨runLen_takeWhile_ne_nil h, takeWhile_all _ _⟩

theorem digitCapture_takeWhile_take {l : List Char} (k : Nat) (hk : k ≠ 0)
    (h : runLen isDigitC l ≠ 0) : DigitCapture ((l.takeWhile isDigitC).take k) :=
  ⟨take_ne_nil (runLen_takeWhile_ne_nil h) hk, all_take k (takeWhile_all _ _)⟩

theorem sxxexxAt_digits : ∀ {s : List Char} {d1 d2 : List Char},
    sxxexxAt s = some (d1, d2) → DigitCapture d1 ∧ DigitCapture d2 := by
  intro s d1 d2 h
  cases s with
  | nil => simp [sxxexxAt] at h
  | cons c rest =>
    simp only [sxxexxAt] at h
    split at h
    · split at h
      · simp at h
      · split at h
        · split at h
          · split at h
            · simp at h
            · rename_i hS hcond after2 e rest2 heq hE hr2
              injection h with h5
              injection h5 with h51 h52
              subst h51
              subst h52
              have hr : runLen isDigitC rest ≠ 0 := by
                intro he
                exact hcond (by simp [he])
              exact ⟨digitCapture_takeWhile hr, digitCapture_takeWhile_take 3 (by omega) hr2⟩
          · simp at h
        · simp at h
    · simp at h

theorem nxnnAt_digits : ∀ {s : List Char} {d1 d2 : List Char},
    nxnnAt s = some (d1, d2) → DigitCapture d1 ∧ DigitCapture d2 := by
  intro s d1 d2 h
  simp only [nxnnAt] at h
  split at h
  · simp at h
  · split at h
    · split at h
      · split at h
        · simp at h
        · rename_i hcond xl x rest2 heq hX hr2
          injection h with h5
          injection h5 with h51 h52
          subst h51
          subst h52
          have hr : runLen isDigitC s ≠ 0 := by
            intro he
            exact hcond (by simp [he])
          exact ⟨digitCapture_takeWhile hr,
            digitCapture_takeWhile_take 3 (by omega) (by omega)⟩
      · simp at h
    · simp at h

theorem exxAt_digits : ∀ {s : List Char} {ds : List Char},
    exxAt s = some ds → DigitCapture ds := by
  intro s ds h
  cases s with
  | nil => simp [exxAt] at h
  | cons c rest =>
    simp only [exxAt] at h
    split at h
    · split at h
      · simp at h
      · rename_i hr
        injection h with h5
        subst h5
        exact digitCapture_takeWhile_take 3 (by omega) hr
    · simp at h

theorem animeAt_digits : ∀ {s : List Char} {ds : List Char},
    animeAt s = some ds → DigitCapture ds := by
  intro s ds h
  cases s with
  | nil => simp [animeAt] at h
  | cons c rest =>
    simp only [animeAt] at h
    split at h
    · split at h
      · simp at h
      · split at h
        · simp at h
        · split at h
          · split at h
            · rename_i hdash hw hcond xl b rest2 heq hb
              injection h with h5
              subst h5
              refine digitCapture_takeWhile ?_
              intro he
              exact hcond (by simp [he])
            · simp at h
          · simp at h
    · simp at h

theorem listSearch_prop {α : Type} {f : List Char → Option α} {Q : α → Prop}
    (hf : ∀ s r, f s = some r → Q r) : ∀ s r, listSearch f s = some r → Q r := by
  intro s
  induction s with
  | nil =>
    intro r h
    exact hf [] r (by simpa [listSearch] using h)
  | cons c rest ih =>
    intro r h
    unfold listSearch at h
    cases hf2 : f (c :: rest) with
    | some v =>
      rw [hf2] at h
      injection h with h1
      subst h1
      exact hf _ _ hf2
    | none =>
      rw [hf2] at h
      exact ih r h

theorem intE_ok {ds : List Char} (h : DigitCapture ds) :
    intE ds = .ok (digitsVal ds) := by
  unfold intE
  rw [if_pos (show ds ≠ [] ∧ ds.all isDigitC = true from ⟨h.1, h.2⟩)]

theorem listSearch_sxxexx_digits {s d1 d2 : List Char}
    (h : listSearch sxxexxAt s = some (d1, d2)) : DigitCapture d1 ∧ DigitCapture d2 :=
  listSearch_prop (Q := fun r => DigitCapture r.1 ∧ DigitCapture r.2)
    (fun _ _ hr => sxxexxAt_digits hr) s (d1, d2) h

theorem listSearch_nxnn_digits {s d1 d2 : List Char}
    (h : listSearch nxnnAt s = some (d1, d2)) : DigitCapture d1 ∧ DigitCapture d2 :=
  listSearch_prop (Q := fun r => DigitCapture r.1 ∧ DigitCapture r.2)
    (fun _ _ hr => nxnnAt_digits hr) s (d1, d2) h

theorem listSearch_exx_digits {s ds : List Char}
    (h : listSearch exxAt s = some ds) : DigitCapture ds :=
  listSearch_prop (Q := DigitCapture) (fun _ _ hr => exxAt_digits hr) s ds h

theorem listSearch_anime_digits {s ds : List Char}
    (h : listSearch animeAt s = some ds) : DigitCapture ds :=
  listSearch_prop (Q := DigitCapture) (fun _ _ hr => animeAt_digits hr) s ds h

theorem stdThenE_eq (s : List Char) (fb : Option EpisodeInfo) :
    stdThenE s (.ok fb) = .ok (stdThen s fb) := by
  unfold stdThenE stdThen
  cases h1 : listSearch sxxexxAt s with
  | some p =>
    obtain ⟨d1, d2⟩ := p
    obtain ⟨hca, hcb⟩ := listSearch_sxxexx_digits h1
    simp only [intE_ok hca, intE_ok hcb]
  | none =>
    cases h2 : listSearch nxnnAt s with
    | some p =>
      obtain ⟨d1, d2⟩ := p
      obtain ⟨hca, hcb⟩ := listSearch_nxnn_digits h2
      simp only [intE_ok hca, intE_ok hcb]
    | none =>
      cases h3 : listSearch exxAt s with
      | some ds =>
        have hc := listSearch_exx_digits h3
        simp only [intE_ok hc]
      | none => rfl

theorem getSeasonEpisodeE_eq (s : List Char) (m : Bool) :
    getSeasonEpisodeE s m = .ok (getSeasonEpisodeL s m) := by
  unfold getSeasonEpisodeE getSeasonEpisodeL
  cases m with
  | true =>
    cases h1 : listSearch animeAt s with
    | some ds =>
      have hc := listSearch_anime_digits h1
      simp only [if_true, intE_ok hc]
    | none =>
      simp only [if_true]
      exact stdThenE_eq s none
  | false =>
    simp only [Bool.false_eq_true, if_false]
    cases h1 : listSearch animeAt s with
    | some ds =>
      have hc := listSearch_anime_digits h1
      simp only [intE_ok hc]
      exact stdThenE_eq s _
    | none => exact stdThenE_eq s none

/-- C8: the core functions are total and never raise: the `Except`-level
embedding of `get_season_episode` (with Python's `int` as the only fallible
primitive) always returns `ok` — of exactly the pure value — and the
`clean_title`, `validate_episode_title` and `format_code` embeddings contain
no fallible primitive at all, for every input including the empty string. -/
theorem core_total (f t sn c : List Char) (m : Bool) (s e : Nat)
    (seen : Option (List (List Char))) (info : EpisodeInfo) :
    getSeasonEpisodeE f m = .ok (getSeasonEpisodeL f m) ∧
    exceptOk (getSeasonEpisodeE f m) = true ∧
    exceptOk (cleanTitleE t sn) = true ∧
    exceptOk (validateE c sn s e seen) = true ∧
    exceptOk (formatCodeE info) = true := by
  refine ⟨getSeasonEpisodeE_eq f m, ?_, rfl, rfl, rfl⟩
  rw [getSeasonEpisodeE_eq]
  rfl
